import Mathlib

/-!
# Verification of the prism-insight crypto swing-trading engine

Shallow embedding of the crypto core of the repository:

* `src/crypto/trading/paper_exchange.py` — paper execution adapter,
* `src/crypto/crypto_tracking_agent.py` — Phase-2 decision / portfolio controller,
* `src/crypto/crypto_trigger_batch.py` — Phase-1 final selector,
* `src/crypto/tracking/db_schema.py` — persistence tables.

Python floats are modelled by `ℚ` (all arithmetic in the claims is exact),
wall-clock timestamps by `ℚ` measured in hours, SQL `NULL`-able columns by
`Option`, and JSON objects by records whose fields are `Option`-valued when
the code reads them through `.get` with a default.  Fields of the scenario
JSON blob that no code path reads back and no claim mentions
(`rationale`, `investment_period`, `market_condition`, `trading_scenarios`,
`expected_return_pct`, `expected_loss_pct`, the theme columns) are elided.
External effects (spot prices, the LLM oracle, the current time) are passed
in explicitly through an `Env` record, so every cycle function is a pure,
executable state transformer.
-/

namespace Crypto

/-- `_safe_float(value, default)`: `None`/missing/unparsable becomes the
default, a numeric value is passed through. -/
def safeF (v : Option ℚ) (d : ℚ) : ℚ := v.getD d

/-- Python `int(x)` on a float: truncation toward zero. -/
def pyInt (q : ℚ) : ℤ := if 0 ≤ q then ⌊q⌋ else ⌈q⌉

/-- Python `round(x)` to an integer: round half to even (banker's rounding). -/
def pyRound (q : ℚ) : ℤ :=
  let f := ⌊q⌋
  let r := q - f
  if r < 1/2 then f
  else if 1/2 < r then f + 1
  else if f % 2 = 0 then f else f + 1

/-- Python float truthiness: `0.0` is falsy, every other float is truthy.
`if limit_price:` in `paper_exchange.py` treats a `None` or `0.0` limit as
"no limit". -/
def qTruthy : Option ℚ → Bool
  | none => false
  | some l => l ≠ 0

/-! ## Paper exchange (`src/crypto/trading/paper_exchange.py`) -/

/-- `PaperCryptoTrading.__init__` fee/slippage configuration. -/
structure PaperCfg where
  feeRate : ℚ := 1/1000
  slippageRate : ℚ := 1/2000
deriving DecidableEq, Repr

/-- Row of the `crypto_order_executions` ledger (`_record_execution`). -/
structure ExecRow where
  symbol : String
  side : String
  orderType : String
  status : String
  requestedPrice : Option ℚ
  executedPrice : ℚ
  quantity : ℚ
  quoteAmount : ℚ
  fee : ℚ
  mode : String := "paper"
  message : String
deriving DecidableEq, Repr

/-- The dict returned by `PaperCryptoTrading.buy` / `sell_all`. -/
structure ExecResult where
  success : Bool
  executedPrice : ℚ := 0
  quantity : ℚ := 0
  quoteAmount : ℚ := 0
  fee : ℚ := 0
  netAmount : ℚ := 0
  message : String := ""
deriving DecidableEq, Repr

/-- `PaperCryptoTrading.buy`.  `market` is the spot price fetched by
`get_current_price` (`0` models "unavailable").  Returns the result dict and
the single ledger row the call records. -/
def paperBuy (p : PaperCfg) (market : ℚ) (sym : String) (quoteAmount : ℚ)
    (limit : Option ℚ) : ExecResult × ExecRow :=
  if market ≤ 0 then
    ({ success := false, message := "Price unavailable" },
     { symbol := sym, side := "buy",
       orderType := if qTruthy limit then "limit" else "market",
       status := "rejected", requestedPrice := limit, executedPrice := 0,
       quantity := 0, quoteAmount := quoteAmount, fee := 0,
       message := "Price unavailable" })
  else
    let ex := market * (1 + p.slippageRate)
    if qTruthy limit ∧ ex > safeF limit 0 then
      ({ success := false, message := "Limit not reached" },
       { symbol := sym, side := "buy", orderType := "limit",
         status := "unfilled", requestedPrice := limit, executedPrice := 0,
         quantity := 0, quoteAmount := quoteAmount, fee := 0,
         message := "Limit not reached" })
    else
      let qty := if ex > 0 then quoteAmount / ex else 0
      let fee := quoteAmount * p.feeRate
      ({ success := true, executedPrice := ex, quantity := qty,
         quoteAmount := quoteAmount, fee := fee, message := "Filled" },
       { symbol := sym, side := "buy",
         orderType := if qTruthy limit then "limit" else "market",
         status := "filled", requestedPrice := limit, executedPrice := ex,
         quantity := qty, quoteAmount := quoteAmount, fee := fee,
         message := "Filled" })

/-- `PaperCryptoTrading.sell_all`. -/
def paperSellAll (p : PaperCfg) (market : ℚ) (sym : String) (quantity : ℚ)
    (limit : Option ℚ) : ExecResult × ExecRow :=
  if market ≤ 0 ∨ quantity ≤ 0 then
    ({ success := false, message := "Invalid price or quantity" },
     { symbol := sym, side := "sell",
       orderType := if qTruthy limit then "limit" else "market",
       status := "rejected", requestedPrice := limit, executedPrice := 0,
       quantity := quantity, quoteAmount := 0, fee := 0,
       message := "Invalid price or quantity" })
  else
    let ex := market * (1 - p.slippageRate)
    if qTruthy limit ∧ ex < safeF limit 0 then
      ({ success := false, message := "Limit not reached" },
       { symbol := sym, side := "sell", orderType := "limit",
         status := "unfilled", requestedPrice := limit, executedPrice := 0,
         quantity := quantity, quoteAmount := 0, fee := 0,
         message := "Limit not reached" })
    else
      let gross := quantity * ex
      let fee := gross * p.feeRate
      ({ success := true, executedPrice := ex, quantity := quantity,
         quoteAmount := gross, fee := fee, netAmount := gross - fee,
         message := "Filled" },
       { symbol := sym, side := "sell",
         orderType := if qTruthy limit then "limit" else "market",
         status := "filled", requestedPrice := limit, executedPrice := ex,
         quantity := quantity, quoteAmount := gross, fee := fee,
         message := "Filled" })

/-! ## Data model of the tracking agent (`src/crypto/crypto_tracking_agent.py`,
`src/crypto/tracking/db_schema.py`) -/

/-- The scenario JSON blob, restricted to the keys the code reads back.
`Option` marks keys that may be absent (read through `.get` with a default).
`trailing_active` is read as `bool(scenario.get("trailing_active", False))`,
so a missing key and `False` coincide and a plain `Bool` suffices. -/
structure Scenario where
  buyScore : Option ℚ := none
  minScore : Option ℚ := none
  decision : Option String := none
  targetPrice : Option ℚ := none
  stopLoss : Option ℚ := none
  riskReward : Option ℚ := none
  trailingActive : Bool := false
  trailingPeak : Option ℚ := none
  dynamicStop : Option ℚ := none
  trailBufferPct : Option ℚ := none
  phase1FinalScore : Option ℚ := none
  finalScore : Option ℚ := none
deriving DecidableEq, Repr

/-- `default_scenario()` (restricted to the modelled keys). -/
def defaultScenario : Scenario :=
  { buyScore := some 0, minScore := some 6, decision := some "no_entry",
    targetPrice := some 0, stopLoss := some 0, riskReward := some 0 }

/-- A Phase-1 candidate object from the candidates JSON.  The numeric fields
are read with `_safe_float`, hence `Option ℚ` (a present but non-numeric
value also falls back to the default and is modelled as `none`).
An absent `"symbol"` key is modelled by the empty string
(`if not symbol: continue`). -/
structure Candidate where
  symbol : String
  currentPrice : Option ℚ := none
  targetPrice : Option ℚ := none
  stopLossPrice : Option ℚ := none
  riskReward : Option ℚ := none
  finalScore : Option ℚ := none
  targetPct : Option ℚ := none
  stopLossPct : Option ℚ := none
deriving DecidableEq, Repr

/-- A row of `crypto_holdings` (PK `symbol`).  `buy_date` is a wall-clock
timestamp in hours.  Theme/trigger columns are carried for fidelity of the
insert but never branch any claimed behaviour. -/
structure Holding where
  symbol : String
  assetName : String
  buyPrice : ℚ
  buyDate : ℚ
  quantity : Option ℚ
  notional : Option ℚ
  currentPrice : ℚ
  scenario : Scenario
  targetPrice : ℚ
  stopLoss : Option ℚ
  triggerType : String
  timeframe : String
deriving DecidableEq, Repr

/-- A row of `crypto_trading_history`. -/
structure TradeRow where
  symbol : String
  assetName : String
  buyPrice : ℚ
  buyDate : ℚ
  quantity : Option ℚ
  notional : Option ℚ
  sellPrice : ℚ
  sellDate : ℚ
  profitRate : ℚ
  holdingHours : ℚ
deriving DecidableEq, Repr

/-- A row of `crypto_watchlist_history` (`_save_watchlist` always writes
`decision = "no_entry"`). -/
structure WatchRow where
  symbol : String
  triggerType : String
  reason : String
  buyScore : ℤ
  minScore : ℤ
  scenario : Scenario
deriving DecidableEq, Repr

/-- The relational store: the four tables the agent mutates. -/
structure DB where
  holdings : List Holding
  history : List TradeRow
  watchlist : List WatchRow
  executions : List ExecRow
deriving DecidableEq, Repr

/-- `CryptoTrackingAgent` class constants. -/
def MAX_SLOTS : Nat := 10
def ROTATION_MIN_SCORE_DELTA : ℚ := 12/100
def ROTATION_LOSS_PRIORITY_PCT : ℚ := -2
def ROTATION_MAX_PER_CYCLE : Nat := 1
def ROTATION_MIN_HOLDING_HOURS : ℚ := 4

/-- Agent configuration (`CryptoTrackingAgent.__init__` arguments). The
paper adapter uses the default `PaperCfg` (the agent constructs
`PaperCryptoTrading(cursor, conn)` with default fee/slippage). -/
structure Cfg where
  executeTrades : Bool := false
  tradeMode : String := "paper"
  quoteAmount : ℚ := 100
  cooldownHours : ℚ := 0
  timeframe : String := "1h"

/-- `initialize` creates the paper trader iff trades are executed in paper
mode; `_get_live_price` and both execution paths consult it only then. -/
def paperTraderOn (cfg : Cfg) : Bool :=
  cfg.executeTrades ∧ cfg.tradeMode = "paper"

/-- External world for one cycle: the wall clock, the per-symbol spot price
returned by `PaperCryptoTrading.get_current_price` (`0` = unavailable), and
the scenario the oracle (`analyze_candidate`) returns for a candidate. -/
structure Env where
  now : ℚ
  spot : String → ℚ
  oracle : String → Candidate → Scenario

/-- `_get_live_price`: paper-trader spot price when available and positive,
otherwise the fallback. -/
def getLivePrice (cfg : Cfg) (env : Env) (sym : String) (fallback : ℚ) : ℚ :=
  if paperTraderOn cfg ∧ env.spot sym > 0 then env.spot sym else fallback

/-- `symbol.split("-")[0].upper()` in `_save_holding` / `_sell_holding`. -/
def assetNameOf (sym : String) : String :=
  ((sym.splitOn "-").headD sym).toUpper

/-! ## Trailing-stop state machine and exit evaluator -/

/-- `_refresh_trailing_state`: returns the updated scenario and the
effective stop.  Reads `holding["current_price"]` after the caller stored
the live price in it, and `holding["stop_loss"]` through `_safe_float`. -/
def profitRatePct (h : Holding) : ℚ :=
  (h.currentPrice - h.buyPrice) / h.buyPrice * 100

/-- `max(prev_peak, current_price)` with the stored peak defaulting to the
buy price: the running maximum the refresh tracks. -/
def refreshedPeak (h : Holding) : ℚ :=
  max (safeF h.scenario.trailingPeak h.buyPrice) h.currentPrice

/-- The profit-laddered trail buffer
(`0.025 / 0.03 / 0.04` as profit expands). -/
def trailBufferFor (profitRate : ℚ) : ℚ :=
  if profitRate < 8 then 1/40 else if profitRate < 15 then 3/100 else 1/25

def refreshTrailingState (h : Holding) : Scenario × ℚ :=
  let scen := h.scenario
  let base := safeF h.stopLoss 0
  if h.buyPrice ≤ 0 ∨ h.currentPrice ≤ 0 then (scen, base)
  else
    let peak := refreshedPeak h
    -- Trailing latches on (sticky) once profit has reached 3%.
    if scen.trailingActive = true ∨ profitRatePct h ≥ 3 then
      let trailBuffer := trailBufferFor (profitRatePct h)
      let trailStop := peak * (1 - trailBuffer)
      let effectiveStop := if base > 0 then max base trailStop else trailStop
      ({ scen with trailingPeak := some peak, trailingActive := true,
                   dynamicStop := some effectiveStop,
                   trailBufferPct := some (trailBuffer * 100) }, effectiveStop)
    else
      ({ scen with trailingPeak := some peak, trailingActive := false,
                   dynamicStop := some base }, base)

/-- The sell reasons `_analyze_sell_decision` can return (the numeric detail
interpolated into the Python reason strings is elided; `_classify_exit_reason`
and the claims only inspect the kind). -/
inductive SellReason
  | trailingStopHit | stopLossHit | targetHit | lossGuard
  | timeTakeProfit | staleCleanup
deriving DecidableEq, Repr

/-- `max((now - buy_dt).total_seconds()/3600, 0)` in hours. -/
def holdingHoursAt (now : ℚ) (h : Holding) : ℚ :=
  max (now - h.buyDate) 0

/-- `_analyze_sell_decision`: `none` is "hold" (also returned on invalid
price context). -/
def analyzeSellDecision (now : ℚ) (h : Holding) : Option SellReason :=
  let stop := safeF h.stopLoss 0
  let dynamicStop := safeF h.scenario.dynamicStop 0
  if h.buyPrice ≤ 0 ∨ h.currentPrice ≤ 0 then none
  else
    let holdingHours := holdingHoursAt now h
    let profitRate := profitRatePct h
    if stop > 0 ∧ h.currentPrice ≤ stop then
      some (if h.scenario.trailingActive ∧ dynamicStop > 0
            then .trailingStopHit else .stopLossHit)
    else if h.targetPrice > 0 ∧ h.currentPrice ≥ h.targetPrice then
      some .targetHit
    else if profitRate ≤ -5 then some .lossGuard
    else if holdingHours ≥ 72 ∧ profitRate ≥ 4 then some .timeTakeProfit
    else if holdingHours ≥ 168 ∧ profitRate < 0 then some .staleCleanup
    else none

/-- The Python reason string for a rule-based sell (prefix of the formatted
message; the interpolated numbers are elided). -/
def sellReasonText : SellReason → String
  | .trailingStopHit => "trailing stop reached"
  | .stopLossHit => "stop loss reached"
  | .targetHit => "target reached"
  | .lossGuard => "loss guard triggered"
  | .timeTakeProfit => "time-based take-profit"
  | .staleCleanup => "stale losing position cleanup"

/-! ## Scenario oracle (`_heuristic_scenario`, `analyze_candidate`) -/

/-- `_heuristic_scenario`: deterministic fallback when the LLM is
unavailable. -/
def heuristicScenario (cand : Candidate) : Scenario :=
  let price := safeF cand.currentPrice 0
  let target := safeF cand.targetPrice (if price > 0 then price * (105/100) else 0)
  let stop := safeF cand.stopLossPrice (if price > 0 then price * (96/100) else 0)
  let rr := safeF cand.riskReward 0
  let finalScore := safeF cand.finalScore 0
  let decision := if rr ≥ 8/5 ∧ finalScore ≥ 9/20 then "entry" else "no_entry"
  let buyScore : ℤ := max 1 (min 10 (pyRound (finalScore * 10)))
  { buyScore := some (buyScore : ℚ), minScore := some 5,
    decision := some decision, targetPrice := some target,
    stopLoss := some stop, riskReward := some rr }

/-- The JSON dict `_parse_json_object` extracts from the LLM response,
restricted to the keys the normalisation below reads.  A present but
non-numeric value behaves like a missing key under `_safe_float` and is
modelled as `none`. -/
structure LLMParsed where
  buyScore : Option ℚ := none
  minScore : Option ℚ := none
  decision : Option String := none
  targetPrice : Option ℚ := none
  stopLoss : Option ℚ := none
  riskReward : Option ℚ := none
deriving DecidableEq, Repr

/-- `default_scenario()` seen as a parsed dict (the modelled keys are all
present). -/
def defaultParsed : LLMParsed :=
  { buyScore := some 0, minScore := some 6, decision := some "no_entry",
    targetPrice := some 0, stopLoss := some 0, riskReward := some 0 }

/-- The `setdefault` / `_safe_float` normalisation block of
`analyze_candidate` applied to a parsed LLM response. -/
def normalizeLLM (p : LLMParsed) (cand : Candidate) : Scenario :=
  let dec0 := (p.decision.getD "no_entry").trim.toLower
  let dec := if dec0 = "entry" ∨ dec0 = "no_entry" then dec0 else "no_entry"
  { buyScore := some (p.buyScore.getD 0),
    minScore := some (p.minScore.getD 6),
    decision := some dec,
    targetPrice := some (safeF p.targetPrice (safeF cand.targetPrice 0)),
    stopLoss := some (safeF p.stopLoss (safeF cand.stopLossPrice 0)),
    riskReward := some (safeF p.riskReward (safeF cand.riskReward 0)) }

/-- `analyze_candidate`.  `hasApiKey` models `OPENAI_API_KEY` being present;
`call` models the LLM interaction: `none` = the call raised (network, model
error — caught by the `except` branch), `some none` = it returned text whose
JSON extraction came back empty, `some (some p)` = it parsed to `p`. -/
def analyzeCandidate (hasApiKey : Bool) (call : Option (Option LLMParsed))
    (cand : Candidate) : Scenario :=
  if ¬ hasApiKey then heuristicScenario cand
  else
    match call with
    | none => heuristicScenario cand
    | some none => normalizeLLM defaultParsed cand
    | some (some p) => normalizeLLM p cand

/-! ## Persistence operations of the controller -/

/-- `_save_watchlist`: appends one `crypto_watchlist_history` row with
`decision="no_entry"`. -/
def saveWatchlist (db : DB) (sym trig : String) (scen : Scenario)
    (reason : String) : DB :=
  { db with watchlist := db.watchlist ++
      [{ symbol := sym, triggerType := trig, reason := reason,
         buyScore := pyInt (safeF scen.buyScore 0),
         minScore := pyInt (safeF scen.minScore 0), scenario := scen }] }

/-- `_save_holding`: inserts one `crypto_holdings` row; `execn` is the paper
buy result when trades executed (`None` otherwise).  `setdefault` persists
the Phase-1 final score into the scenario blob. -/
def saveHolding (cfg : Cfg) (env : Env) (db : DB) (sym trig : String)
    (cand : Candidate) (scen : Scenario) (execn : Option ExecResult) : DB :=
  let fallbackPrice := safeF cand.currentPrice 0
  let execPrice := match execn with
    | some e => e.executedPrice
    | none => fallbackPrice
  let execQty := match execn with
    | some e => e.quantity
    | none => 0
  let execNotional := match execn with
    | some e => e.quoteAmount
    | none => 0
  let scen1 := { scen with
    phase1FinalScore := some (scen.phase1FinalScore.getD (safeF cand.finalScore 0)) }
  let h : Holding :=
    { symbol := sym, assetName := assetNameOf sym,
      buyPrice := execPrice, buyDate := env.now,
      quantity := if execQty > 0 then some execQty else none,
      notional := if execNotional > 0 then some execNotional else none,
      currentPrice := if execPrice > 0 then execPrice else fallbackPrice,
      scenario := scen1,
      targetPrice := safeF scen.targetPrice 0,
      stopLoss := some (safeF scen.stopLoss 0),
      triggerType := trig, timeframe := cfg.timeframe }
  { db with holdings := db.holdings ++ [h] }

/-- The quantity `_sell_holding` liquidates: the stored quantity, or
`notional / buy_price` when only the notional is known. -/
def sellQty (h : Holding) : ℚ :=
  let qty0 := safeF h.quantity 0
  let notional := safeF h.notional 0
  if qty0 ≤ 0 ∧ h.buyPrice > 0 ∧ notional > 0 then notional / h.buyPrice
  else qty0

/-- The `crypto_trading_history` row `_sell_holding` archives. -/
def tradeRowFor (env : Env) (h : Holding) (executionPrice : ℚ) : TradeRow :=
  { symbol := h.symbol, assetName := h.assetName,
    buyPrice := h.buyPrice, buyDate := h.buyDate,
    quantity := if sellQty h > 0 then some (sellQty h) else none,
    notional := if safeF h.notional 0 > 0 then some (safeF h.notional 0) else none,
    sellPrice := executionPrice, sellDate := env.now,
    profitRate := if h.buyPrice > 0
      then (executionPrice - h.buyPrice) / h.buyPrice * 100 else 0,
    holdingHours := holdingHoursAt env.now h }

/-- The archive-and-delete tail of `_sell_holding`: append the history row
and `DELETE FROM crypto_holdings WHERE symbol = ?`. -/
def archiveSell (env : Env) (db : DB) (h : Holding) (executionPrice : ℚ) : DB :=
  { db with history := db.history ++ [tradeRowFor env h executionPrice],
            holdings := db.holdings.filter (fun g => g.symbol ≠ h.symbol) }

/-- `_record_execution`: append one ledger row. -/
def recordExecution (db : DB) (row : ExecRow) : DB :=
  { db with executions := db.executions ++ [row] }

/-- `_sell_holding`: executes the paper sell when enabled, then archives to
`crypto_trading_history` and deletes the holding.  Returns whether the sell
went through together with the updated store. -/
def sellHolding (cfg : Cfg) (env : Env) (db : DB)
    (h : Holding) (_reason : String) : Bool × DB :=
  if h.symbol = "" then (false, db)
  else if cfg.executeTrades then
    if cfg.tradeMode ≠ "paper" ∨ ¬ paperTraderOn cfg then (false, db)
    else
      let pr := paperSellAll { } (env.spot h.symbol) h.symbol (sellQty h) none
      let db1 := recordExecution db pr.2
      if ¬ pr.1.success then (false, db1)
      else (true, archiveSell env db1 h pr.1.executedPrice)
  else (true, archiveSell env db h h.currentPrice)

/-! ## Holding refresh loop (`update_holdings`) -/

/-- The in-memory refresh `update_holdings` performs on a fetched holding
before deciding: live price into `current_price`, refreshed scenario, and
the effective stop into `stop_loss`. -/
def refreshHolding (cfg : Cfg) (env : Env) (h : Holding) : Holding :=
  let live := getLivePrice cfg env h.symbol h.currentPrice
  let h1 := { h with currentPrice := live }
  let (scen, effectiveStop) := refreshTrailingState h1
  { h1 with scenario := scen, stopLoss := some effectiveStop }

/-- The `UPDATE crypto_holdings SET ...` of the keep branch (a stop that is
not positive is stored as `NULL`). -/
def updateHoldingRow (db : DB) (h1 : Holding) : DB :=
  { db with holdings := db.holdings.map (fun g =>
      if g.symbol = h1.symbol then
        { g with currentPrice := h1.currentPrice,
                 stopLoss := if safeF h1.stopLoss 0 > 0
                             then some (safeF h1.stopLoss 0) else none,
                 scenario := h1.scenario }
      else g) }

/-- One iteration of the `update_holdings` loop over the fetched snapshot. -/
def updateHoldingsStep (cfg : Cfg) (env : Env)
    (acc : DB × Nat) (h : Holding) : DB × Nat :=
  let h1 := refreshHolding cfg env h
  match analyzeSellDecision env.now h1 with
  | some r =>
      let sres := sellHolding cfg env acc.1 h1 (sellReasonText r)
      (sres.2, acc.2 + if sres.1 then 1 else 0)
  | none => (updateHoldingRow acc.1 h1, acc.2)

/-- `update_holdings`: refresh every holding, run the exit evaluator, sell
or persist the refreshed row.  Returns the store and the sold count. -/
def updateHoldings (cfg : Cfg) (env : Env) (db : DB) :
    DB × Nat :=
  db.holdings.foldl (updateHoldingsStep cfg env) (db, 0)

/-! ## Re-entry cool-down (`_is_reentry_cooldown_active`) -/

/-- The `sell_date` the SQL query
`SELECT sell_date ... ORDER BY sell_date DESC, id DESC LIMIT 1` returns:
the latest recorded sell date of the symbol (the `id` tie-break picks the
most recently inserted of equal dates, whose date is the same value). -/
def lastSellDate (db : DB) (sym : String) : Option ℚ :=
  db.history.foldl (fun acc r =>
    if r.symbol = sym then
      match acc with
      | none => some r.sellDate
      | some t => if r.sellDate ≥ t then some r.sellDate else some t
    else acc) none

/-- `_is_reentry_cooldown_active`: active while `now < last_sell + H`.
Timestamps are well-formed in the model, so the `strptime` failure branch
does not arise. -/
def cooldownActive (cfg : Cfg) (env : Env) (db : DB) (sym : String) : Bool :=
  if cfg.cooldownHours ≤ 0 then false
  else
    match lastSellDate db sym with
    | none => false
    | some t => env.now < t + cfg.cooldownHours

/-- The cool-down skip reason (remaining-hours detail elided). -/
def cooldownReasonText : String := "re-entry cooldown active"

/-! ## Slot rotation (`_try_rotation_entry`) -/

/-- `_holding_final_score`: the stored Phase-1 score, else a `final_score`
key, else `_safe_float(holding.get("risk_reward_ratio"), 0.0) / 10.0` — and
the holdings `SELECT` has no `risk_reward_ratio` column, so that last
fallback is always `0`. -/
def holdingFinalScore (h : Holding) : ℚ :=
  let s1 := safeF h.scenario.phase1FinalScore (-1)
  if s1 < 0 then
    let s2 := safeF h.scenario.finalScore (-1)
    if s2 < 0 then 0 else s2
  else s1

/-- One entry of the `ranked` list `_try_rotation_entry` builds. -/
structure Ranked where
  holding : Holding
  score : ℚ
  profit : ℚ
  lossPriority : Bool
  hours : ℚ
deriving DecidableEq, Repr

/-- The `(holding, score, profit, loss_priority, hours)` tuple for one
holding. -/
def rankHolding (cfg : Cfg) (env : Env) (h : Holding) : Ranked :=
  let live := getLivePrice cfg env h.symbol h.currentPrice
  let profit := if h.buyPrice > 0 then (live - h.buyPrice) / h.buyPrice * 100 else 0
  let hours := holdingHoursAt env.now h
  { holding := h, score := holdingFinalScore h, profit := profit,
    lossPriority := profit ≤ ROTATION_LOSS_PRIORITY_PCT, hours := hours }

/-- `ranked` over the current holdings. -/
def rotationRanked (cfg : Cfg) (env : Env) (db : DB) : List Ranked :=
  db.holdings.map (rankHolding cfg env)

/-- The `eligible` filter: score-delta gate and minimum-holding gate. -/
def rotationEligible (newFinalScore : ℚ) (ranked : List Ranked) : List Ranked :=
  ranked.filter (fun x =>
    newFinalScore ≥ x.score + ROTATION_MIN_SCORE_DELTA ∧
    x.hours ≥ ROTATION_MIN_HOLDING_HOURS)

/-- The weakest `phase1_final_score` among the ranked holdings (the
reference point of the spec's Gate 1). -/
def minimumScore : List Ranked → ℚ
  | [] => 0
  | [x] => x.score
  | x :: y :: xs => min x.score (minimumScore (y :: xs))

/-- The eviction sort key `(profit >= 0.0, not loss_priority, profit,
score)`.  Python compares such tuples lexicographically with
`False < True`, which is exactly the `Prod.Lex` order on
`Bool ×ₗ Bool ×ₗ ℚ ×ₗ ℚ`. -/
def rotKey (x : Ranked) : Bool ×ₗ Bool ×ₗ ℚ ×ₗ ℚ :=
  toLex (decide (x.profit ≥ 0),
    toLex (!x.lossPriority, toLex (x.profit, x.score)))

/-- `eligible.sort(key=...)[0]`: Python's stable sort puts at the head the
first element of the list that no other element strictly beats under the
key. -/
def pickFirstMin (x : Ranked) (xs : List Ranked) : Ranked :=
  xs.foldl (fun best y => if rotKey y < rotKey best then y else best) x

/-- The reason string of a completed rotation sell; `_classify_exit_reason`
and Watchlist readers only match on the `"rotation replace:"` prefix, so
the interpolated numbers are elided. -/
def rotationReplaceReason (targetSym newSym : String) : String :=
  "rotation replace: " ++ targetSym ++ " -> " ++ newSym

/-- The `(rotated, reason, sold_count)` result of `_try_rotation_entry`
together with the store it leaves behind. -/
structure RotationOutcome where
  rotated : Bool
  reason : String
  soldCount : Nat
  db : DB
deriving DecidableEq, Repr

/-- `_try_rotation_entry`: evict the weakest eligible holding and admit the
candidate. -/
def tryRotationEntry (cfg : Cfg) (env : Env) (db : DB) (sym trig : String)
    (cand : Candidate) (scen : Scenario) : RotationOutcome :=
  match rotationRanked cfg env db with
  | [] => ⟨false, "no holdings for rotation", 0, db⟩
  | r0 :: rs =>
    -- `new_final_score = _safe_float(candidate.get("final_score"), 0.0)`
    match rotationEligible (safeF cand.finalScore 0) (r0 :: rs) with
    | [] =>
        if (r0 :: rs).any (fun x => x.hours < ROTATION_MIN_HOLDING_HOURS) then
          ⟨false, "rotation blocked: min holding", 0, db⟩
        else
          ⟨false, "rotation blocked: score delta below weakest threshold", 0, db⟩
    | e0 :: es =>
        let target := pickFirstMin e0 es
        let sellReason := rotationReplaceReason target.holding.symbol sym
        let sres := sellHolding cfg env db target.holding sellReason
        if ¬ sres.1 then
          ⟨false, "rotation sell failed: " ++ target.holding.symbol, 0, sres.2⟩
        else if cfg.executeTrades then
          if cfg.tradeMode ≠ "paper" then
            ⟨false, "unsupported trade_mode", 1, sres.2⟩
          else
            -- `initialize` created the paper trader in this configuration.
            let pr := paperBuy { } (env.spot sym) sym cfg.quoteAmount none
            let db2 := recordExecution sres.2 pr.2
            if ¬ pr.1.success then
              ⟨false, "paper buy failed after rotation: " ++ pr.1.message, 1, db2⟩
            else
              ⟨true, "rotated", 1,
                saveHolding cfg env db2 sym trig cand scen (some pr.1)⟩
        else
          ⟨true, "rotated", 1, saveHolding cfg env sres.2 sym trig cand scen none⟩

/-! ## Candidate loop (`process_candidates_file`) -/

/-- Per-cycle mutable state of `process_candidates_file`.
`rotationAttempts` counts the calls to `_try_rotation_entry` (the quantity
"rotations attempted this cycle"); `rotationsDone` is the code's
`rotations_done` counter, incremented only on a completed rotation. -/
structure CycleState where
  db : DB
  entryCount : Nat := 0
  noEntryCount : Nat := 0
  soldCount : Nat := 0
  rotationsDone : Nat := 0
  rotationAttempts : Nat := 0
deriving DecidableEq, Repr

/-- `True` iff a holdings row for the symbol exists
(`is_crypto_symbol_in_holdings`). -/
def symbolHeld (db : DB) (sym : String) : Bool :=
  db.holdings.any (fun h => h.symbol = sym)

/-- Record a no-entry decision: Watchlist row plus counter. -/
def recordNoEntry (st : CycleState) (sym trig : String) (scen : Scenario)
    (reason : String) : CycleState :=
  { st with db := saveWatchlist st.db sym trig scen reason,
            noEntryCount := st.noEntryCount + 1 }

/-- The body of the candidate loop for a single candidate `item`. -/
def processOne (cfg : Cfg) (env : Env) (st : CycleState) (trig : String)
    (cand : Candidate) : CycleState :=
  let sym := cand.symbol
  if sym = "" then st
  else if symbolHeld st.db sym then st
  else if cooldownActive cfg env st.db sym then
    recordNoEntry st sym trig defaultScenario cooldownReasonText
  else
    let scen := env.oracle trig cand
    let buyScore := pyInt (safeF scen.buyScore 0)
    let minScore := pyInt (safeF scen.minScore 6)
    let decision := (scen.decision.getD "no_entry").toLower
    if decision = "entry" ∧ buyScore ≥ minScore then
      if st.db.holdings.length ≥ MAX_SLOTS then
        if st.rotationsDone < ROTATION_MAX_PER_CYCLE then
          let rot := tryRotationEntry cfg env st.db sym trig cand scen
          let st1 := { st with db := rot.db,
                               soldCount := st.soldCount + rot.soldCount,
                               rotationAttempts := st.rotationAttempts + 1 }
          if rot.rotated then
            { st1 with entryCount := st1.entryCount + 1,
                       rotationsDone := st1.rotationsDone + 1 }
          else
            recordNoEntry st1 sym trig scen rot.reason
        else
          recordNoEntry st sym trig scen "max slots reached, rotation limit reached"
      else if cfg.executeTrades then
        if cfg.tradeMode ≠ "paper" then
          recordNoEntry st sym trig scen "unsupported trade_mode"
        else
          -- `initialize` created the paper trader in this configuration.
          let pr := paperBuy { } (env.spot sym) sym cfg.quoteAmount none
          let db1 := recordExecution st.db pr.2
          if ¬ pr.1.success then
            recordNoEntry { st with db := db1 } sym trig scen
              ("paper buy failed: " ++ pr.1.message)
          else
            { st with db := saveHolding cfg env db1 sym trig cand scen (some pr.1),
                      entryCount := st.entryCount + 1 }
      else
        { st with db := saveHolding cfg env st.db sym trig cand scen none,
                  entryCount := st.entryCount + 1 }
    else
      recordNoEntry st sym trig scen "decision or score below entry condition"

/-- The loop over one trigger's candidate list. -/
def processTrigger (cfg : Cfg) (env : Env) (st : CycleState) (trig : String)
    (items : List Candidate) : CycleState :=
  items.foldl (fun s c => processOne cfg env s trig c) st

/-- `process_candidates_file`: refresh holdings (exits first), then process
every trigger's candidates in file order; the `"metadata"` key is skipped. -/
def processCandidatesFile (cfg : Cfg) (env : Env) (db : DB)
    (data : List (String × List Candidate)) : CycleState :=
  let upd := updateHoldings cfg env db
  data.foldl (fun s p =>
      if p.1 = "metadata" then s else processTrigger cfg env s p.1 p.2)
    { db := upd.1, soldCount := upd.2 }

/-! ## Final selector (`select_final_symbols`, `crypto_trigger_batch.py`)

The scoring prelude (`score_candidates_by_agent_criteria`, hybrid blend,
`sort_values`) produces, per trigger, an ordered candidate list; the
selection passes only read symbols and `final_score` in that order.  A
trigger's list is modelled as `List (String × ℚ)` of `(symbol, final_score)`
in ranked order, and the trigger dict as an insertion-ordered association
list. -/

/-- Inner loop of pass 1: first symbol of the ranked list not selected. -/
def firstNotSelected (sel : List String) : List (String × ℚ) → Option String
  | [] => none
  | (s, _) :: rest => if s ∈ sel then firstNotSelected sel rest else some s

/-- Pass 1 of `select_final_symbols`: one unique symbol per trigger, with
the early `return final` once the cap is reached (`Bool` marks it). -/
def passOne (maxP : Nat) :
    List (String × List (String × ℚ)) → List String →
    List (String × List String) →
    List (String × List String) × List String × Bool
  | [], sel, final => (final, sel, false)
  | (name, df) :: rest, sel, final =>
    let step := match firstNotSelected sel df with
      | some s => (final ++ [(name, [s])], sel ++ [s])
      | none => (final, sel)
    if maxP ≤ step.2.length then (step.1, step.2, true)
    else passOne maxP rest step.2 step.1

/-- The pass-2 pool: remaining `(trigger, symbol, final_score)`. -/
def passTwoPool (triggers : List (String × List (String × ℚ)))
    (sel : List String) : List (String × String × ℚ) :=
  triggers.flatMap (fun p =>
    (p.2.filter (fun sd => decide (sd.1 ∉ sel))).map (fun sd => (p.1, sd.1, sd.2)))

/-- Stable insertion for descending sort by `final_score` (an earlier pool
element stays before later elements of equal score, as Python's stable
`sort(..., reverse=True)` does). -/
def insertByScoreDesc (x : String × String × ℚ) :
    List (String × String × ℚ) → List (String × String × ℚ)
  | [] => [x]
  | y :: ys => if x.2.2 ≥ y.2.2 then x :: y :: ys else y :: insertByScoreDesc x ys

/-- `pool.sort(key=lambda x: x[2], reverse=True)` (stable). -/
def sortByScoreDesc (l : List (String × String × ℚ)) :
    List (String × String × ℚ) :=
  l.foldr insertByScoreDesc []

/-- Append a symbol under its originating trigger group (dict update:
existing key keeps its position, a new key goes to the end). -/
def addToGroup : List (String × List String) → String → String →
    List (String × List String)
  | [], name, s => [(name, [s])]
  | (n, syms) :: rest, name, s =>
      if n = name then (n, syms ++ [s]) :: rest
      else (n, syms) :: addToGroup rest name s

/-- Pass 2: greedily add unique symbols by descending score until the cap. -/
def passTwo (maxP : Nat) : List (String × String × ℚ) → List String →
    List (String × List String) → List (String × List String)
  | [], _, final => final
  | (name, s, _) :: rest, sel, final =>
    if maxP ≤ sel.length then final
    else if s ∈ sel then passTwo maxP rest sel final
    else passTwo maxP rest (sel ++ [s]) (addToGroup final name s)

/-- `select_final_symbols` (selection part, over the scored ranked lists). -/
def selectFinalSymbols (triggers : List (String × List (String × ℚ)))
    (maxPositions : Nat) : List (String × List String) :=
  match passOne maxPositions triggers [] [] with
  | (final1, _, true) => final1
  | (final1, sel1, false) =>
      passTwo maxPositions (sortByScoreDesc (passTwoPool triggers sel1)) sel1 final1

/-- All selected symbols of a selection result, across trigger groups. -/
def groupSymbols (final : List (String × List String)) : List String :=
  (final.map Prod.snd).flatten

/-! ## Specification-side definitions

These definitions follow the wording of the spec claims (not the source);
the theorems below compare them with the source-derived definitions. -/

/-- Observable outcome of a paper-exchange call, as the spec describes it. -/
structure SpecFill where
  status : String
  executedPrice : ℚ := 0
  quantity : ℚ := 0
  quoteAmount : ℚ := 0
  fee : ℚ := 0
  netAmount : ℚ := 0
deriving DecidableEq, Repr

/-- The observables of a `paperBuy`/`paperSellAll` call: the ledger status
and the numeric fields of the returned dict. -/
def callObservables (r : ExecResult × ExecRow) : SpecFill :=
  { status := r.2.status, executedPrice := r.1.executedPrice,
    quantity := r.1.quantity, quoteAmount := r.1.quoteAmount,
    fee := r.1.fee, netAmount := r.1.netAmount }

/-- C7's `Buy` rule exactly as stated: "the order is unfilled when a limit
price is set and the execution price exceeds it". -/
def specBuyStated (p : PaperCfg) (market quoteAmount : ℚ)
    (limit : Option ℚ) : SpecFill :=
  if market ≤ 0 then { status := "rejected" }
  else
    let ex := market * (1 + p.slippageRate)
    let fill : SpecFill :=
      { status := "filled", executedPrice := ex,
        quantity := quoteAmount / ex, quoteAmount := quoteAmount,
        fee := quoteAmount * p.feeRate }
    match limit with
    | some l => if ex > l then { status := "unfilled" } else fill
    | none => fill

/-- C7's `Buy` rule as amended: only a *nonzero* limit price participates
in the unfilled check. -/
def specBuyAmended (p : PaperCfg) (market quoteAmount : ℚ)
    (limit : Option ℚ) : SpecFill :=
  if market ≤ 0 then { status := "rejected" }
  else
    let ex := market * (1 + p.slippageRate)
    let fill : SpecFill :=
      { status := "filled", executedPrice := ex,
        quantity := quoteAmount / ex, quoteAmount := quoteAmount,
        fee := quoteAmount * p.feeRate }
    match limit with
    | some l => if l ≠ 0 ∧ ex > l then { status := "unfilled" } else fill
    | none => fill

/-- C7's `SellAll` rule as amended (same nonzero-limit reading). -/
def specSellAmended (p : PaperCfg) (market quantity : ℚ)
    (limit : Option ℚ) : SpecFill :=
  if market ≤ 0 ∨ quantity ≤ 0 then { status := "rejected" }
  else
    let ex := market * (1 - p.slippageRate)
    let gross := quantity * ex
    let fee := gross * p.feeRate
    let fill : SpecFill :=
      { status := "filled", executedPrice := ex, quantity := quantity,
        quoteAmount := gross, fee := fee, netAmount := gross - fee }
    match limit with
    | some l => if l ≠ 0 ∧ ex < l then { status := "unfilled" } else fill
    | none => fill

/-- C3's exit evaluator exactly as stated: rule 2 is
"sell when current price ≥ target_price", with no positivity guard on the
target. -/
def claimSellDecisionStated (now : ℚ) (h : Holding) : Option SellReason :=
  if h.currentPrice ≤ safeF h.stopLoss 0 then
    some (if h.scenario.trailingActive = true then .trailingStopHit
          else .stopLossHit)
  else if h.currentPrice ≥ h.targetPrice then some .targetHit
  else if profitRatePct h ≤ -5 then some .lossGuard
  else if now - h.buyDate ≥ 72 ∧ profitRatePct h ≥ 4 then some .timeTakeProfit
  else if now - h.buyDate ≥ 168 ∧ profitRatePct h < 0 then some .staleCleanup
  else none

/-- C3's exit evaluator as amended: rule 2 additionally requires
`target_price > 0`. -/
def claimSellDecisionAmended (now : ℚ) (h : Holding) : Option SellReason :=
  if h.currentPrice ≤ safeF h.stopLoss 0 then
    some (if h.scenario.trailingActive = true then .trailingStopHit
          else .stopLossHit)
  else if h.targetPrice > 0 ∧ h.currentPrice ≥ h.targetPrice then
    some .targetHit
  else if profitRatePct h ≤ -5 then some .lossGuard
  else if now - h.buyDate ≥ 72 ∧ profitRatePct h ≥ 4 then some .timeTakeProfit
  else if now - h.buyDate ≥ 168 ∧ profitRatePct h < 0 then some .staleCleanup
  else none

/-- The holdings-table invariant of the spec: at most `MAX_SLOTS` rows and
no two rows for the same symbol. -/
def holdingsInv (db : DB) : Prop :=
  db.holdings.length ≤ MAX_SLOTS ∧
  (db.holdings.map (fun h => h.symbol)).Nodup

/-! ## Concrete instances used by counterexamples and witnesses -/

/-- An environment with no live prices and the default-scenario oracle. -/
def env0 : Env :=
  { now := 0, spot := fun _ => 0, oracle := fun _ _ => defaultScenario }

/-- A degenerate but constructible holding: zero buy price (a no-execution
entry whose candidate carried no `current_price`), positive current price,
and a stored trailing peak. -/
def zeroBuyHolding : Holding :=
  { symbol := "ETH-USD", assetName := "ETH", buyPrice := 0, buyDate := 0,
    quantity := none, notional := none, currentPrice := 10,
    scenario := { trailingPeak := some 5 }, targetPrice := 0,
    stopLoss := some 0, triggerType := "t", timeframe := "1h" }

/-- A holding at break-even whose scenario carries neither target nor stop
(`target_price = stop_loss = 0`, as `default_scenario` would produce). -/
def noTargetHolding : Holding :=
  { symbol := "SOL-USD", assetName := "SOL", buyPrice := 100, buyDate := 0,
    quantity := none, notional := none, currentPrice := 100,
    scenario := { }, targetPrice := 0, stopLoss := some 0,
    triggerType := "t", timeframe := "1h" }

/-- A holding with trailing already latched and a stored peak, in profit. -/
def trailActiveHolding : Holding :=
  { symbol := "BTC-USD", assetName := "BTC", buyPrice := 100, buyDate := 0,
    quantity := none, notional := none, currentPrice := 110,
    scenario := { trailingActive := true, trailingPeak := some 110 },
    targetPrice := 150, stopLoss := some 95, triggerType := "t",
    timeframe := "1h" }

/-- A slot-filling holding at break-even with a stored Phase-1 score of
`0.4`, held zero hours at `now = 0`. -/
def slotHolding (name : String) : Holding :=
  { symbol := name, assetName := name, buyPrice := 100, buyDate := 0,
    quantity := none, notional := none, currentPrice := 100,
    scenario := { phase1FinalScore := some (2/5) }, targetPrice := 0,
    stopLoss := none, triggerType := "t", timeframe := "1h" }

/-- A store whose ten slots are all full of fresh break-even holdings. -/
def tenSlotDB : DB :=
  { holdings := ["A1-USD", "A2-USD", "A3-USD", "A4-USD", "A5-USD", "A6-USD",
      "A7-USD", "A8-USD", "A9-USD", "A10-USD"].map slotHolding,
    history := [], watchlist := [], executions := [] }

/-- An oracle answer that passes the entry condition. -/
def entryScenario : Scenario :=
  { buyScore := some 10, minScore := some 5, decision := some "entry" }

/-- An environment whose oracle always answers `entryScenario`. -/
def rotEnv : Env :=
  { now := 0, spot := fun _ => 0, oracle := fun _ _ => entryScenario }

/-- Two strong fresh candidates for the rotation-attempt counterexample. -/
def candN : Candidate := { symbol := "NEW-USD", finalScore := some 1 }
def candM : Candidate := { symbol := "NEW2-USD", finalScore := some 1 }

/-- The scenario blob the refresh loop writes back for a break-even slot. -/
def rotScen : Scenario :=
  { phase1FinalScore := some (2/5), trailingPeak := some 100,
    trailingActive := false, dynamicStop := some 0 }

/-- A slot holding after the in-memory refresh of `update_holdings`. -/
def refreshedSlot (name : String) : Holding :=
  { slotHolding name with stopLoss := some 0, scenario := rotScen }

/-- `tenSlotDB` after the `update_holdings` pass of the cycle. -/
def rotDB : DB :=
  { holdings := ["A1-USD", "A2-USD", "A3-USD", "A4-USD", "A5-USD", "A6-USD",
      "A7-USD", "A8-USD", "A9-USD", "A10-USD"].map (fun n =>
      { slotHolding n with stopLoss := none, scenario := rotScen }),
    history := [], watchlist := [], executions := [] }

/-- A holding of `NEAR-USD` that co-exists with a recent recorded sell of
the same symbol (reachable across runs with different cool-down settings). -/
def cooldownHeldHolding : Holding :=
  { symbol := "NEAR-USD", assetName := "NEAR", buyPrice := 100, buyDate := 11,
    quantity := none, notional := none, currentPrice := 100,
    scenario := { }, targetPrice := 0, stopLoss := none,
    triggerType := "t", timeframe := "1h" }

/-- A recorded sell of `NEAR-USD` at `t = 10`. -/
def cooldownTradeRow : TradeRow :=
  { symbol := "NEAR-USD", assetName := "NEAR", buyPrice := 100, buyDate := 0,
    quantity := none, notional := none, sellPrice := 100, sellDate := 10,
    profitRate := 0, holdingHours := 10 }

/-- The store for the cool-down counterexample: the symbol is held *and*
was last sold at `t = 10`. -/
def heldCooldownDB : DB :=
  { holdings := [cooldownHeldHolding], history := [cooldownTradeRow],
    watchlist := [], executions := [] }

def cooldownCfg : Cfg := { cooldownHours := 5 }

def cooldownEnv : Env :=
  { now := 12, spot := fun _ => 0, oracle := fun _ _ => defaultScenario }

def cooldownCand : Candidate := { symbol := "NEAR-USD" }

def cooldownState0 : CycleState := { db := heldCooldownDB }

/-- A candidate whose symbol is already held in `rotDB`. -/
def candA1 : Candidate := { symbol := "A1-USD" }

/-- A holding row with an empty symbol (reachable: `_save_holding` never
validates the symbol it receives from the candidates file of an earlier
cycle whose cool-down query matched nothing). -/
def emptySymHolding : Holding :=
  { symbol := "", assetName := "", buyPrice := 100, buyDate := 0,
    quantity := none, notional := none, currentPrice := 100,
    scenario := { phase1FinalScore := some 0 }, targetPrice := 0,
    stopLoss := none, triggerType := "t", timeframe := "1h" }

/-- A store holding only `emptySymHolding`. -/
def emptySymDB : DB :=
  { holdings := [emptySymHolding], history := [], watchlist := [],
    executions := [] }

/-- An environment ten hours after the empty-symbol holding was bought. -/
def sellFailEnv : Env :=
  { now := 10, spot := fun _ => 0, oracle := fun _ _ => entryScenario }

/-- A store with a recorded `NEAR-USD` sell and no current holding. -/
def freeCooldownDB : DB :=
  { holdings := [], history := [cooldownTradeRow], watchlist := [],
    executions := [] }

/-! # Theorems -/

/-! ## Helper lemmas -/

theorem paperBuy_mode (p : PaperCfg) (m : ℚ) (s : String) (qa : ℚ)
    (l : Option ℚ) : (paperBuy p m s qa l).2.mode = "paper" := by
  simp only [paperBuy]
  split_ifs <;> rfl

theorem paperSellAll_mode (p : PaperCfg) (m : ℚ) (s : String) (q : ℚ)
    (l : Option ℚ) : (paperSellAll p m s q l).2.mode = "paper" := by
  simp only [paperSellAll]
  split_ifs <;> rfl

/-- Failure branches of `_sell_holding` leave the holdings table (and the
history) untouched. -/
theorem sellHolding_fail_state (cfg : Cfg) (env : Env) (db : DB)
    (h : Holding) (r : String)
    (hfail : (sellHolding cfg env db h r).1 = false) :
    (sellHolding cfg env db h r).2.holdings = db.holdings ∧
    (sellHolding cfg env db h r).2.history = db.history := by
  simp only [sellHolding] at *
  split_ifs at *
  · exact ⟨rfl, rfl⟩
  · exact ⟨rfl, rfl⟩
  · exact ⟨rfl, rfl⟩

/-- Successful branches of `_sell_holding` delete exactly the sold symbol
and append exactly one history row. -/
theorem sellHolding_success_state (cfg : Cfg) (env : Env) (db : DB)
    (h : Holding) (r : String)
    (hok : (sellHolding cfg env db h r).1 = true) :
    (sellHolding cfg env db h r).2.holdings =
      db.holdings.filter (fun g => g.symbol ≠ h.symbol) ∧
    ∃ price, (sellHolding cfg env db h r).2.history =
      db.history ++ [tradeRowFor env h price] := by
  simp only [sellHolding] at *
  split_ifs at *
  · exact ⟨rfl, _, rfl⟩
  · exact ⟨rfl, _, rfl⟩

/-! ## C7 — paper exchange fill semantics -/

/-- C7 counterexample.  A `Buy` call whose limit price is set to `0`: the
execution price `100·1.0005` exceeds the limit, so the claim as stated makes
the order unfilled, but `if limit_price:` treats the zero limit as "no
limit" and the order fills. -/
theorem buy_zero_limit_fills_against_claim :
    (paperBuy { } 100 "BTC-USD" 100 (some 0)).2.status = "filled" ∧
    (specBuyStated { } 100 100 (some 0)).status = "unfilled" := by
  constructor
  · norm_num [paperBuy, qTruthy]
  · norm_num [specBuyStated]

/-- C7 (amended: only a set *and nonzero* limit price can leave an order
unfilled).  For every paper-exchange call with slippage above −100%: a buy
with non-positive spot is rejected; otherwise it executes at
`market·(1+slippage)`, is unfilled when a nonzero limit is set below that
price, and else fills with `qty = quote/exec` and `fee = quote·fee_rate`;
a sell with non-positive spot or quantity is rejected; otherwise it executes
at `market·(1−slippage)`, is unfilled when a nonzero limit is set above that
price, and else fills with `gross = qty·exec`, `fee = gross·fee_rate`,
`net = gross − fee`.  Both ledger rows carry `mode = "paper"`, and an
executed-trades `_sell_holding` appends exactly one ledger row whatever the
outcome. -/
theorem paper_exchange_fill_semantics (p : PaperCfg) (market : ℚ)
    (sym : String) (qa qty : ℚ) (limit : Option ℚ)
    (hslip : -1 < p.slippageRate) :
    callObservables (paperBuy p market sym qa limit) =
      specBuyAmended p market qa limit ∧
    callObservables (paperSellAll p market sym qty limit) =
      specSellAmended p market qty limit ∧
    (paperBuy p market sym qa limit).2.mode = "paper" ∧
    (paperSellAll p market sym qty limit).2.mode = "paper" ∧
    (∀ (cfg : Cfg) (env : Env) (db : DB) (h : Holding) (r : String),
      cfg.executeTrades = true → cfg.tradeMode = "paper" → h.symbol ≠ "" →
      ∃ row : ExecRow, (sellHolding cfg env db h r).2.executions =
        db.executions ++ [row] ∧ row.mode = "paper") := by
  refine ⟨?_, ?_, paperBuy_mode .., paperSellAll_mode .., ?_⟩
  · simp only [paperBuy, specBuyAmended, callObservables]
    by_cases hm : market ≤ 0
    · simp [hm]
    · have hex : market * (1 + p.slippageRate) > 0 :=
        mul_pos (by linarith) (by linarith)
      simp only [hm, if_false]
      cases limit with
      | none => simp [qTruthy, hex]
      | some l =>
        by_cases hl : l = 0
        · subst hl
          simp [qTruthy, hex, safeF]
        · by_cases hgt : market * (1 + p.slippageRate) > l
          · simp [qTruthy, hl, hgt, safeF]
          · simp [qTruthy, hl, hgt, safeF, hex]
  · simp only [paperSellAll, specSellAmended, callObservables]
    by_cases hm : market ≤ 0 ∨ qty ≤ 0
    · simp [hm]
    · simp only [hm, if_false]
      cases limit with
      | none => simp [qTruthy]
      | some l =>
        by_cases hl : l = 0
        · subst hl
          simp [qTruthy, safeF]
        · by_cases hlt : market * (1 - p.slippageRate) < l
          · simp [qTruthy, hl, hlt, safeF]
          · simp [qTruthy, hl, hlt, safeF]
  · intro cfg env db h r hexec hmode hsym
    refine ⟨(paperSellAll { } (env.spot h.symbol) h.symbol (sellQty h) none).2,
      ?_, paperSellAll_mode ..⟩
    simp only [sellHolding, hsym, hexec, hmode, paperTraderOn]
    split_ifs <;> first | rfl | simp_all

/-- C7 witness: the amended fill semantics evaluated at a plain market buy
at spot 100 with the default configuration. -/
theorem paper_exchange_fill_semantics_witness :
    callObservables (paperBuy { } 100 "BTC-USD" 100 none) =
      specBuyAmended { } 100 100 none :=
  (paper_exchange_fill_semantics { } 100 "BTC-USD" 100 1 none (by norm_num)).1

/-! ## C9 — heuristic oracle -/

/-- C9: whenever the API key is absent or the LLM call raises, the
deterministic heuristic scenario is used; the heuristic decides `entry` iff
`risk_reward_ratio ≥ 1.6` and `final_score ≥ 0.45`, with
`buy_score = clamp(round(final_score·10), 1, 10)` (Python's round-half-even)
and `min_score = 5`. -/
theorem heuristic_oracle_fallback (cand : Candidate)
    (call : Option (Option LLMParsed)) :
    analyzeCandidate false call cand = heuristicScenario cand ∧
    analyzeCandidate true none cand = heuristicScenario cand ∧
    ((heuristicScenario cand).decision = some "entry" ↔
      safeF cand.riskReward 0 ≥ 8/5 ∧ safeF cand.finalScore 0 ≥ 9/20) ∧
    (heuristicScenario cand).buyScore =
      some ((max 1 (min 10 (pyRound (safeF cand.finalScore 0 * 10))) : ℤ) : ℚ) ∧
    (heuristicScenario cand).minScore = some 5 := by
  refine ⟨by simp [analyzeCandidate], by simp [analyzeCandidate], ?_, rfl, rfl⟩
  simp only [heuristicScenario]
  by_cases hcond : safeF cand.riskReward 0 ≥ 8/5 ∧ safeF cand.finalScore 0 ≥ 9/20
  · simp [hcond]
  · simp only [if_neg hcond]
    constructor
    · intro habs
      exact absurd (Option.some_injective _ habs) (by decide)
    · intro hc
      exact absurd hc hcond

/-- C9 witness: a candidate with `rr = 2`, `final_score = 0.7` goes through
the heuristic when no API key is present. -/
theorem heuristic_oracle_fallback_witness :
    analyzeCandidate false none
      { symbol := "BTC-USD", riskReward := some 2, finalScore := some (7/10) } =
    heuristicScenario
      { symbol := "BTC-USD", riskReward := some 2, finalScore := some (7/10) } :=
  (heuristic_oracle_fallback
    { symbol := "BTC-USD", riskReward := some 2, finalScore := some (7/10) } none).1

/-! ## C2 — trailing peak monotonicity and dynamic stop -/

theorem trailBufferFor_bounds (pr : ℚ) :
    0 < trailBufferFor pr ∧ trailBufferFor pr ≤ 1/25 := by
  unfold trailBufferFor
  split_ifs <;> norm_num

/-- C2 counterexample.  A holding with `buy_price = 0` (a no-execution
entry whose candidate had no price) and a stored peak of `5`: the refresh
returns the scenario unchanged, so `trailing_peak_price` stays `5` instead
of being set to `max(5, current) = 10` as the claim states for every open
holding. -/
theorem trailing_refresh_peak_counterexample :
    (refreshTrailingState zeroBuyHolding).1.trailingPeak ≠
      some (max (safeF zeroBuyHolding.scenario.trailingPeak
        zeroBuyHolding.buyPrice) zeroBuyHolding.currentPrice) := by
  norm_num [refreshTrailingState, safeF, zeroBuyHolding]

/-- C2 (amended: the peak-update equation holds for holdings with valid
price context, i.e. `buy_price > 0` and `current_price > 0`; the stored
peak never decreases in any case).  Each refresh with valid prices sets the
peak to `max(previous peak, current price)`; the stored peak is monotone
non-decreasing across every refresh; and in the trailing-active state the
effective stop equals `max(base stop, peak·(1 − trail_buffer))` with
`trail_buffer ≤ 0.04`, is stored as `dynamic_stop_loss`, is at least
`peak·(1 − 0.04)`, and dominates a known (positive) base stop. -/
theorem trailing_refresh_monotone_and_stop (h : Holding) :
    (h.buyPrice > 0 → h.currentPrice > 0 →
      (refreshTrailingState h).1.trailingPeak = some (refreshedPeak h)) ∧
    (∀ p, h.scenario.trailingPeak = some p →
      ∃ q, (refreshTrailingState h).1.trailingPeak = some q ∧ p ≤ q) ∧
    (h.buyPrice > 0 → h.currentPrice > 0 →
      (refreshTrailingState h).1.trailingActive = true →
      trailBufferFor (profitRatePct h) ≤ 1/25 ∧
      (refreshTrailingState h).2 = max (safeF h.stopLoss 0)
        (refreshedPeak h * (1 - trailBufferFor (profitRatePct h))) ∧
      (refreshTrailingState h).1.dynamicStop =
        some ((refreshTrailingState h).2) ∧
      refreshedPeak h * (1 - 1/25) ≤ (refreshTrailingState h).2 ∧
      (safeF h.stopLoss 0 > 0 →
        safeF h.stopLoss 0 ≤ (refreshTrailingState h).2)) := by
  have hvalid : h.buyPrice > 0 → h.currentPrice > 0 →
      ¬ (h.buyPrice ≤ 0 ∨ h.currentPrice ≤ 0) := by
    intro hb hc
    push_neg
    exact ⟨hb, hc⟩
  refine ⟨?_, ?_, ?_⟩
  · intro hb hc
    simp only [refreshTrailingState, if_neg (hvalid hb hc)]
    split_ifs <;> rfl
  · intro p hp
    by_cases hv : h.buyPrice ≤ 0 ∨ h.currentPrice ≤ 0
    · exact ⟨p, by simp only [refreshTrailingState, if_pos hv]; exact hp,
        le_refl p⟩
    · refine ⟨refreshedPeak h, ?_, ?_⟩
      · simp only [refreshTrailingState, if_neg hv]
        split_ifs <;> rfl
      · simp [refreshedPeak, hp, safeF]
  · intro hb hc hact
    obtain ⟨htb0, htb⟩ := trailBufferFor_bounds (profitRatePct h)
    have hpeak : 0 < refreshedPeak h :=
      lt_of_lt_of_le hc (le_max_right _ _)
    have htrail : 0 < refreshedPeak h * (1 - trailBufferFor (profitRatePct h)) :=
      mul_pos hpeak (by linarith)
    simp only [refreshTrailingState, if_neg (hvalid hb hc)] at hact ⊢
    by_cases htr : h.scenario.trailingActive = true ∨ profitRatePct h ≥ 3
    · simp only [if_pos htr] at hact ⊢
      have heff : (if safeF h.stopLoss 0 > 0 then
            max (safeF h.stopLoss 0)
              (refreshedPeak h * (1 - trailBufferFor (profitRatePct h)))
          else refreshedPeak h * (1 - trailBufferFor (profitRatePct h))) =
          max (safeF h.stopLoss 0)
            (refreshedPeak h * (1 - trailBufferFor (profitRatePct h))) := by
        split_ifs with hbase
        · rfl
        · exact (max_eq_right (by linarith)).symm
      refine ⟨htb, heff, ?_, ?_, ?_⟩
      · first | rfl | trivial
      · rw [heff]
        calc refreshedPeak h * (1 - 1/25)
            ≤ refreshedPeak h * (1 - trailBufferFor (profitRatePct h)) :=
              mul_le_mul_of_nonneg_left (by linarith) (le_of_lt hpeak)
          _ ≤ _ := le_max_right _ _
      · intro hbase
        rw [heff]
        exact le_max_left _ _
    · simp only [if_neg htr] at hact
      simp at hact

/-- C2 witness: the trailing-active clause evaluated on a latched holding
at 10% profit (`trail_buffer = 0.03`). -/
theorem trailing_refresh_monotone_and_stop_witness :
    trailBufferFor (profitRatePct trailActiveHolding) ≤ 1/25 ∧
    (refreshTrailingState trailActiveHolding).2 =
      max (safeF trailActiveHolding.stopLoss 0)
        (refreshedPeak trailActiveHolding *
          (1 - trailBufferFor (profitRatePct trailActiveHolding))) ∧
    (refreshTrailingState trailActiveHolding).1.dynamicStop =
      some ((refreshTrailingState trailActiveHolding).2) ∧
    refreshedPeak trailActiveHolding * (1 - 1/25) ≤
      (refreshTrailingState trailActiveHolding).2 ∧
    (safeF trailActiveHolding.stopLoss 0 > 0 →
      safeF trailActiveHolding.stopLoss 0 ≤
        (refreshTrailingState trailActiveHolding).2) :=
  (trailing_refresh_monotone_and_stop trailActiveHolding).2.2
    (by norm_num [trailActiveHolding])
    (by norm_num [trailActiveHolding])
    (by norm_num [refreshTrailingState, trailActiveHolding, profitRatePct])

/-! ## C3 — exit evaluator priority order -/

/-- With valid prices, a refresh that leaves trailing active stores a
positive dynamic stop (it is at least `peak·0.96 > 0`), and the stop it
returns is the one it stores. -/
theorem refresh_active_dynamicStop_pos (h : Holding)
    (hb : h.buyPrice > 0) (hc : h.currentPrice > 0)
    (hact : (refreshTrailingState h).1.trailingActive = true) :
    (refreshTrailingState h).1.dynamicStop =
      some ((refreshTrailingState h).2) ∧
    0 < (refreshTrailingState h).2 := by
  have hv : ¬ (h.buyPrice ≤ 0 ∨ h.currentPrice ≤ 0) := by
    push_neg
    exact ⟨hb, hc⟩
  obtain ⟨htb0, htb⟩ := trailBufferFor_bounds (profitRatePct h)
  have hpeak : 0 < refreshedPeak h := lt_of_lt_of_le hc (le_max_right _ _)
  have htrail : 0 < refreshedPeak h * (1 - trailBufferFor (profitRatePct h)) :=
    mul_pos hpeak (by linarith)
  simp only [refreshTrailingState, if_neg hv] at hact ⊢
  by_cases htr : h.scenario.trailingActive = true ∨ profitRatePct h ≥ 3
  · simp only [if_pos htr]
    refine ⟨?_, ?_⟩
    · first | rfl | trivial
    split_ifs with hbase
    · exact lt_max_of_lt_right htrail
    · exact htrail
  · simp only [if_neg htr] at hact
    simp at hact

/-- C3 counterexample.  A refreshed holding with valid price context
(`buy = current = 100 > 0`) whose scenario carries no target
(`target_price = 0`): the claim's rule (2) fires (`100 ≥ 0`) and sells at
"target reached", while the code guards the target with `target_price > 0`
and holds. -/
theorem sell_decision_stated_counterexample :
    noTargetHolding.buyPrice > 0 ∧
    (refreshHolding { } env0 noTargetHolding).currentPrice > 0 ∧
    analyzeSellDecision env0.now (refreshHolding { } env0 noTargetHolding) =
      none ∧
    claimSellDecisionStated env0.now
      (refreshHolding { } env0 noTargetHolding) = some SellReason.targetHit := by
  refine ⟨by norm_num [noTargetHolding], ?_, ?_, ?_⟩ <;>
    norm_num [refreshHolding, refreshTrailingState, analyzeSellDecision,
      claimSellDecisionStated, getLivePrice, paperTraderOn, refreshedPeak,
      profitRatePct, holdingHoursAt, safeF, noTargetHolding, env0]

/-- C3 (amended: rule (2) fires only for a positive `target_price`).
For every refreshed holding with valid price context the rule-based sell
decision equals the claimed priority order: (1) current ≤ effective stop —
tagged trailing stop iff trailing is active; (2) `target_price > 0` and
current ≥ target; (3) profit ≤ −5%; (4) ≥ 72h and profit ≥ 4%;
(5) ≥ 168h and profit < 0; otherwise hold. -/
theorem sell_decision_priority_order (cfg : Cfg) (env : Env) (h : Holding)
    (hb : h.buyPrice > 0)
    (hc : (refreshHolding cfg env h).currentPrice > 0) :
    analyzeSellDecision env.now (refreshHolding cfg env h) =
      claimSellDecisionAmended env.now (refreshHolding cfg env h) := by
  set s := refreshHolding cfg env h with hs
  have hb' : s.buyPrice > 0 := hb
  have hdyn : s.scenario.trailingActive = true →
      0 < safeF s.scenario.dynamicStop 0 := by
    intro hact
    have := refresh_active_dynamicStop_pos
      { h with currentPrice := getLivePrice cfg env h.symbol h.currentPrice }
      hb hc hact
    rw [show s.scenario = (refreshTrailingState
      { h with currentPrice := getLivePrice cfg env h.symbol h.currentPrice }).1
      from rfl, this.1]
    exact this.2
  simp only [analyzeSellDecision, claimSellDecisionAmended]
  rw [if_neg (by push_neg; exact ⟨hb', hc⟩)]
  by_cases h1 : s.currentPrice ≤ safeF s.stopLoss 0
  · have hstop : 0 < safeF s.stopLoss 0 := lt_of_lt_of_le hc h1
    rw [if_pos ⟨hstop, h1⟩, if_pos h1]
    by_cases hta : s.scenario.trailingActive = true
    · rw [if_pos ⟨hta, hdyn hta⟩, if_pos hta]
    · rw [if_neg (by tauto), if_neg hta]
  · rw [if_neg (by tauto), if_neg h1]
    by_cases h2 : s.targetPrice > 0 ∧ s.currentPrice ≥ s.targetPrice
    · rw [if_pos h2, if_pos h2]
    · rw [if_neg h2, if_neg h2]
      by_cases h3 : profitRatePct s ≤ -5
      · rw [if_pos h3, if_pos h3]
      · rw [if_neg h3, if_neg h3]
        have h72 : holdingHoursAt env.now s ≥ 72 ↔ env.now - s.buyDate ≥ 72 := by
          unfold holdingHoursAt
          constructor
          · intro hx
            rcases le_max_iff.mp hx with hx' | hx'
            · exact hx'
            · linarith
          · intro hx
            exact le_max_of_le_left hx
        have h168 : holdingHoursAt env.now s ≥ 168 ↔
            env.now - s.buyDate ≥ 168 := by
          unfold holdingHoursAt
          constructor
          · intro hx
            rcases le_max_iff.mp hx with hx' | hx'
            · exact hx'
            · linarith
          · intro hx
            exact le_max_of_le_left hx
        by_cases h4 : env.now - s.buyDate ≥ 72 ∧ profitRatePct s ≥ 4
        · rw [if_pos ⟨h72.mpr h4.1, h4.2⟩, if_pos h4]
        · rw [if_neg (fun hx => h4 ⟨h72.mp hx.1, hx.2⟩), if_neg h4]
          by_cases h5 : env.now - s.buyDate ≥ 168 ∧ profitRatePct s < 0
          · rw [if_pos ⟨h168.mpr h5.1, h5.2⟩, if_pos h5]
          · rw [if_neg (fun hx => h5 ⟨h168.mp hx.1, hx.2⟩), if_neg h5]

/-- C3 witness: the amended priority order evaluated on a refreshed
trailing holding with valid prices. -/
theorem sell_decision_priority_order_witness :
    analyzeSellDecision env0.now (refreshHolding { } env0 trailActiveHolding) =
      claimSellDecisionAmended env0.now
        (refreshHolding { } env0 trailActiveHolding) :=
  sell_decision_priority_order { } env0 trailActiveHolding
    (by norm_num [trailActiveHolding])
    (by norm_num [refreshHolding, getLivePrice, paperTraderOn,
      trailActiveHolding, env0])

/-! ## C10 — persistence without trade execution -/

/-- C10: with `execute_trades` off (the default), an admitted entry inserts
a holding priced at the candidate's Phase-1 `current_price` on both
`buy_price` and `current_price`, with `NULL` quantity and notional; an exit
archives a history row priced at the holding's (refreshed) `current_price`
and deletes the holding; and neither path writes any order-execution ledger
row. -/
theorem no_execution_persistence (cfg : Cfg) (env : Env) (db : DB)
    (sym trig : String) (cand : Candidate) (scen : Scenario) (h : Holding)
    (r : String) (hexec : cfg.executeTrades = false) (hsym : h.symbol ≠ "") :
    (∃ hnew : Holding,
      (saveHolding cfg env db sym trig cand scen none).holdings =
        db.holdings ++ [hnew] ∧
      hnew.symbol = sym ∧
      hnew.buyPrice = safeF cand.currentPrice 0 ∧
      hnew.currentPrice = safeF cand.currentPrice 0 ∧
      hnew.quantity = none ∧ hnew.notional = none) ∧
    (saveHolding cfg env db sym trig cand scen none).executions =
      db.executions ∧
    sellHolding cfg env db h r = (true, archiveSell env db h h.currentPrice) ∧
    (archiveSell env db h h.currentPrice).history =
      db.history ++ [tradeRowFor env h h.currentPrice] ∧
    (tradeRowFor env h h.currentPrice).sellPrice = h.currentPrice ∧
    (archiveSell env db h h.currentPrice).holdings =
      db.holdings.filter (fun g => g.symbol ≠ h.symbol) ∧
    (archiveSell env db h h.currentPrice).executions = db.executions := by
  refine ⟨⟨_, rfl, rfl, rfl, ?_, ?_, ?_⟩, rfl, ?_, rfl, rfl, rfl, rfl⟩
  · simp only [saveHolding]
    exact ite_self _
  · norm_num
  · norm_num
  · simp [sellHolding, hexec, hsym]

/-- C10 witness: a no-execution entry and exit on concrete data. -/
theorem no_execution_persistence_witness :
    sellHolding { } env0 ⟨[trailActiveHolding], [], [], []⟩ trailActiveHolding
      "target reached" =
    (true, archiveSell env0 ⟨[trailActiveHolding], [], [], []⟩
      trailActiveHolding trailActiveHolding.currentPrice) :=
  (no_execution_persistence { } env0 ⟨[trailActiveHolding], [], [], []⟩
    "BTC-USD" "t" { symbol := "BTC-USD" } defaultScenario trailActiveHolding
    "target reached" rfl (by simp [trailActiveHolding])).2.2.1

/-! ## C8 — two-pass final selection -/

theorem firstNotSelected_not_mem (sel : List String) :
    ∀ df s, firstNotSelected sel df = some s → s ∉ sel := by
  intro df
  induction df with
  | nil => intro s hs; simp [firstNotSelected] at hs
  | cons a rest ih =>
    intro s hs
    by_cases hmem : a.1 ∈ sel
    · exact ih s (by simpa [firstNotSelected, hmem] using hs)
    · simp only [firstNotSelected, if_neg hmem, Option.some.injEq] at hs
      subst hs
      exact hmem

theorem groupSymbols_append_single (final : List (String × List String))
    (name s : String) :
    groupSymbols (final ++ [(name, [s])]) = groupSymbols final ++ [s] := by
  simp [groupSymbols]

theorem addToGroup_perm (name s : String) :
    ∀ final : List (String × List String),
      List.Perm (groupSymbols (addToGroup final name s))
        (groupSymbols final ++ [s]) := by
  intro final
  induction final with
  | nil => simp [addToGroup, groupSymbols]
  | cons p rest ih =>
    obtain ⟨n, syms⟩ := p
    by_cases hn : n = name
    · simp only [addToGroup, if_pos hn, groupSymbols, List.map_cons,
        List.flatten_cons]
      rw [List.append_assoc syms [s] ((rest.map Prod.snd).flatten),
        List.append_assoc syms ((rest.map Prod.snd).flatten) [s]]
      exact List.Perm.append_left syms List.perm_append_comm
    · simp only [addToGroup, if_neg hn, groupSymbols, List.map_cons,
        List.flatten_cons]
      rw [List.append_assoc syms ((rest.map Prod.snd).flatten) [s]]
      exact List.Perm.append_left syms (by simpa [groupSymbols] using ih)

theorem passOne_inv (maxP : Nat) :
    ∀ (triggers : List (String × List (String × ℚ))) (sel : List String)
      (final : List (String × List String)),
      List.Perm (groupSymbols final) sel → sel.Nodup → sel.length < maxP →
      List.Perm (groupSymbols (passOne maxP triggers sel final).1)
        ((passOne maxP triggers sel final).2.1) ∧
      (passOne maxP triggers sel final).2.1.Nodup ∧
      (passOne maxP triggers sel final).2.1.length ≤ maxP := by
  intro triggers
  induction triggers with
  | nil =>
    intro sel final hperm hnd hlen
    exact ⟨hperm, hnd, le_of_lt hlen⟩
  | cons p rest ih =>
    intro sel final hperm hnd hlen
    obtain ⟨name, df⟩ := p
    simp only [passOne]
    cases hfs : firstNotSelected sel df with
    | none =>
      simp only [hfs]
      split_ifs with hcap
      · exact ⟨hperm, hnd, le_of_lt hlen⟩
      · exact ih sel final hperm hnd hlen
    | some s =>
      have hsnot : s ∉ sel := firstNotSelected_not_mem sel df s hfs
      have hperm' : List.Perm (groupSymbols (final ++ [(name, [s])]))
          (sel ++ [s]) := by
        rw [groupSymbols_append_single]
        exact hperm.append_right [s]
      have hnd' : (sel ++ [s]).Nodup := by
        simp [List.nodup_append, hnd, hsnot]
      simp only [hfs]
      split_ifs with hcap
      · exact ⟨hperm', hnd', by simpa using Nat.succ_le_of_lt hlen⟩
      · refine ih (sel ++ [s]) (final ++ [(name, [s])]) hperm' hnd' ?_
        simpa using lt_of_not_le hcap

theorem passTwo_inv (maxP : Nat) :
    ∀ (pool : List (String × String × ℚ)) (sel : List String)
      (final : List (String × List String)),
      List.Perm (groupSymbols final) sel → sel.Nodup → sel.length ≤ maxP →
      ∃ sel' : List String,
        List.Perm (groupSymbols (passTwo maxP pool sel final)) sel' ∧
        sel'.Nodup ∧ sel'.length ≤ maxP := by
  intro pool
  induction pool with
  | nil =>
    intro sel final hperm hnd hlen
    exact ⟨sel, hperm, hnd, hlen⟩
  | cons x rest ih =>
    intro sel final hperm hnd hlen
    obtain ⟨name, s, score⟩ := x
    simp only [passTwo]
    split_ifs with hcap hmem
    · exact ⟨sel, hperm, hnd, hlen⟩
    · exact ih sel final hperm hnd hlen
    · refine ih (sel ++ [s]) (addToGroup final name s) ?_ ?_ ?_
      · exact (addToGroup_perm name s final).trans (hperm.append_right [s])
      · simp [List.nodup_append, hnd, hmem]
      · have : sel.length < maxP := lt_of_not_le hcap
        simpa using this

/-- C8 counterexample.  With `max_positions = 0` and one non-empty trigger
list, pass 1 selects a symbol *before* checking the cap, so the result
holds one symbol — more than `max_positions`. -/
theorem select_final_cap_zero_counterexample :
    groupSymbols (selectFinalSymbols [("t", [("A", 1)])] 0) = ["A"] := by
  rfl

/-- C8 (amended: for a cap `max_positions ≥ 1`).  The two-pass selection
never assigns the same symbol to two trigger groups and returns at most
`max_positions` symbols in total. -/
theorem select_final_cap_and_unique
    (triggers : List (String × List (String × ℚ))) (maxPositions : Nat)
    (hmax : 1 ≤ maxPositions) :
    (groupSymbols (selectFinalSymbols triggers maxPositions)).Nodup ∧
    (groupSymbols (selectFinalSymbols triggers maxPositions)).length ≤
      maxPositions := by
  have h1 := passOne_inv maxPositions triggers [] []
    (by simp [groupSymbols]) List.nodup_nil (by simpa using hmax)
  unfold selectFinalSymbols
  rcases hp : passOne maxPositions triggers [] [] with ⟨final1, sel1, b⟩
  rw [hp] at h1
  obtain ⟨hperm1, hnd1, hlen1⟩ := h1
  cases b with
  | true =>
    exact ⟨(hperm1.nodup_iff).mpr hnd1, hperm1.length_eq ▸ hlen1⟩
  | false =>
    obtain ⟨sel', hperm', hnd', hlen'⟩ :=
      passTwo_inv maxPositions
        (sortByScoreDesc (passTwoPool triggers sel1)) sel1 final1
        hperm1 hnd1 hlen1
    exact ⟨(hperm'.nodup_iff).mpr hnd', hperm'.length_eq ▸ hlen'⟩

/-- C8 witness: the amended selection bound evaluated at one trigger and
cap 1. -/
theorem select_final_cap_and_unique_witness :
    (groupSymbols (selectFinalSymbols [("t", [("A", 1)])] 1)).Nodup ∧
    (groupSymbols (selectFinalSymbols [("t", [("A", 1)])] 1)).length ≤ 1 :=
  select_final_cap_and_unique [("t", [("A", 1)])] 1 (le_refl 1)

/-! ## Lemmas about the portfolio loop -/

theorem sellHolding_watchlist (cfg : Cfg) (env : Env) (db : DB) (h : Holding)
    (r : String) : (sellHolding cfg env db h r).2.watchlist = db.watchlist := by
  simp only [sellHolding]
  split_ifs <;> rfl

theorem updateHoldingRow_symbols (db : DB) (h1 : Holding) :
    (updateHoldingRow db h1).holdings.map (fun g => g.symbol) =
      db.holdings.map (fun g => g.symbol) ∧
    (updateHoldingRow db h1).holdings.length = db.holdings.length := by
  constructor
  · simp only [updateHoldingRow, List.map_map]
    apply List.map_congr_left
    intro a _
    by_cases hsy : a.symbol = h1.symbol <;> simp [hsy]
  · simp [updateHoldingRow]

theorem saveHolding_state (cfg : Cfg) (env : Env) (db : DB)
    (sym trig : String) (cand : Candidate) (scen : Scenario)
    (execn : Option ExecResult) :
    ∃ hnew : Holding, hnew.symbol = sym ∧
      (saveHolding cfg env db sym trig cand scen execn).holdings =
        db.holdings ++ [hnew] ∧
      (saveHolding cfg env db sym trig cand scen execn).watchlist =
        db.watchlist ∧
      (saveHolding cfg env db sym trig cand scen execn).history =
        db.history := by
  exact ⟨_, rfl, rfl, rfl, rfl⟩

/-- Deleting one held symbol from a duplicate-free table removes exactly
one row. -/
theorem filter_ne_symbol_length :
    ∀ (l : List Holding) (t : Holding),
      (l.map (fun g => g.symbol)).Nodup → t ∈ l →
      (l.filter (fun g => g.symbol ≠ t.symbol)).length + 1 = l.length := by
  intro l
  induction l with
  | nil => intro t _ ht; cases ht
  | cons a rest ih =>
    intro t hnd ht
    simp only [List.map_cons, List.nodup_cons] at hnd
    rcases List.mem_cons.mp ht with rfl | htr
    · have hkeep : rest.filter (fun g => g.symbol ≠ t.symbol) = rest := by
        apply List.filter_eq_self.mpr
        intro g hg
        simp only [ne_eq, decide_eq_true_eq]
        intro hgsym
        exact hnd.1 (hgsym ▸ List.mem_map_of_mem (fun x => x.symbol) hg)
      rw [List.filter_cons, if_neg (by simp), hkeep, List.length_cons]
    · have hasym : a.symbol ≠ t.symbol := by
        intro heq
        exact hnd.1 (heq ▸ List.mem_map_of_mem (fun x => x.symbol) htr)
      have hrec := ih t hnd.2 htr
      rw [List.filter_cons, if_pos (by simp [hasym])]
      simp only [List.length_cons]
      omega

theorem rotationRanked_holding_mem (cfg : Cfg) (env : Env) (db : DB)
    (x : Ranked) (hx : x ∈ rotationRanked cfg env db) :
    x.holding ∈ db.holdings := by
  simp only [rotationRanked, List.mem_map] at hx
  obtain ⟨a, ha, rfl⟩ := hx
  exact ha

theorem pickFirstMin_mem (x : Ranked) (xs : List Ranked) :
    pickFirstMin x xs ∈ x :: xs := by
  induction xs generalizing x with
  | nil => simp [pickFirstMin]
  | cons y ys ih =>
    simp only [pickFirstMin, List.foldl_cons]
    by_cases hlt : rotKey y < rotKey x
    · simp only [if_pos hlt]
      show pickFirstMin y ys ∈ x :: y :: ys
      exact List.mem_cons_of_mem x (ih y)
    · simp only [if_neg hlt]
      show pickFirstMin x ys ∈ x :: y :: ys
      rcases List.mem_cons.mp (ih x) with heq | hmem
      · rw [heq]
        exact List.mem_cons_self ..
      · exact List.mem_cons_of_mem x (List.mem_cons_of_mem y hmem)

theorem pickFirstMin_min (x : Ranked) (xs : List Ranked) :
    ∀ y ∈ x :: xs, ¬ rotKey y < rotKey (pickFirstMin x xs) := by
  induction xs generalizing x with
  | nil =>
    intro y hy
    simp only [List.mem_singleton] at hy
    subst hy
    simp [pickFirstMin]
  | cons z zs ih =>
    intro y hy
    simp only [pickFirstMin, List.foldl_cons]
    by_cases hlt : rotKey z < rotKey x
    · simp only [if_pos hlt]
      show ¬ rotKey y < rotKey (pickFirstMin z zs)
      rcases List.mem_cons.mp hy with rfl | hy'
      · have hz : ¬ rotKey z < rotKey (pickFirstMin z zs) :=
          ih z z (List.mem_cons_self ..)
        intro habs
        exact absurd (lt_of_lt_of_le habs (not_lt.mp hz)) (asymm hlt)
      · exact ih z y hy'
    · simp only [if_neg hlt]
      show ¬ rotKey y < rotKey (pickFirstMin x zs)
      rcases List.mem_cons.mp hy with rfl | hy'
      · exact ih y y (List.mem_cons_self ..)
      · rcases List.mem_cons.mp hy' with rfl | hy''
        · have hx' : ¬ rotKey x < rotKey (pickFirstMin x zs) :=
            ih x x (List.mem_cons_self ..)
          intro habs
          exact absurd (lt_of_lt_of_le habs
            (le_trans (not_lt.mp hx') (not_lt.mp hlt))) (lt_irrefl _)
        · exact ih x y (List.mem_cons_of_mem x hy'')

theorem minimumScore_le :
    ∀ (l : List Ranked) (x : Ranked), x ∈ l → minimumScore l ≤ x.score := by
  intro l
  induction l with
  | nil => intro x hx; cases hx
  | cons a rest ih =>
    intro x hx
    cases rest with
    | nil =>
      simp only [List.mem_singleton] at hx
      subst hx
      exact le_refl _
    | cons b bs =>
      simp only [minimumScore]
      rcases List.mem_cons.mp hx with rfl | hx'
      · exact min_le_left _ _
      · exact le_trans (min_le_right _ _) (ih _ hx')

theorem sellHolding_holdings_cases (cfg : Cfg) (env : Env) (db : DB)
    (h : Holding) (r : String) :
    (sellHolding cfg env db h r).2.holdings = db.holdings ∨
    (sellHolding cfg env db h r).2.holdings =
      db.holdings.filter (fun g => g.symbol ≠ h.symbol) := by
  simp only [sellHolding]
  split_ifs <;> simp [recordExecution, archiveSell]

/-- `_sell_holding` never enlarges the holdings table and keeps its symbols
duplicate-free. -/
theorem sellHolding_inv (cfg : Cfg) (env : Env) (db : DB) (h : Holding)
    (r : String) (hinv : holdingsInv db) :
    holdingsInv (sellHolding cfg env db h r).2 ∧
    (sellHolding cfg env db h r).2.holdings.length ≤ db.holdings.length := by
  rcases sellHolding_holdings_cases cfg env db h r with hcase | hcase
  · rw [holdingsInv, hcase]
    exact ⟨hinv, le_refl _⟩
  · rw [holdingsInv, hcase]
    have hsub : List.Sublist
        ((db.holdings.filter (fun g => g.symbol ≠ h.symbol)).map
          (fun g => g.symbol))
        (db.holdings.map (fun g => g.symbol)) :=
      (List.filter_sublist db.holdings).map _
    exact ⟨⟨le_trans (List.length_filter_le _ _) hinv.1, hinv.2.sublist hsub⟩,
      List.length_filter_le _ _⟩

/-- The state effect of `_try_rotation_entry`: the invariant is preserved,
the table never grows, a completed rotation keeps the row count unchanged,
and the Watchlist is untouched. -/
theorem tryRotationEntry_state (cfg : Cfg) (env : Env) (db : DB)
    (sym trig : String) (cand : Candidate) (scen : Scenario)
    (hinv : holdingsInv db) (hheld : symbolHeld db sym = false) :
    holdingsInv (tryRotationEntry cfg env db sym trig cand scen).db ∧
    (tryRotationEntry cfg env db sym trig cand scen).db.holdings.length ≤
      db.holdings.length ∧
    ((tryRotationEntry cfg env db sym trig cand scen).rotated = true →
      (tryRotationEntry cfg env db sym trig cand scen).db.holdings.length =
        db.holdings.length) ∧
    (tryRotationEntry cfg env db sym trig cand scen).db.watchlist =
      db.watchlist := by
  have hsymnot : sym ∉ db.holdings.map (fun g => g.symbol) := by
    intro habs
    rw [symbolHeld, List.any_eq_false] at hheld
    obtain ⟨g, hg, hgs⟩ := List.mem_map.mp habs
    exact absurd (decide_eq_true hgs) (hheld g hg)
  unfold tryRotationEntry
  split
  · exact ⟨hinv, le_refl _, by simp, rfl⟩
  · rename_i r0 rs hr
    split
    · split_ifs <;> exact ⟨hinv, le_refl _, by simp, rfl⟩
    · rename_i e0 es he
      have htmem : (pickFirstMin e0 es).holding ∈ db.holdings := by
        refine rotationRanked_holding_mem cfg env db _ ?_
        rw [hr]
        exact List.mem_of_mem_filter (he ▸ pickFirstMin_mem e0 es)
      simp only []
      set target := pickFirstMin e0 es with htarget
      set sreason := rotationReplaceReason target.holding.symbol sym
        with hsreason
      set sres := sellHolding cfg env db target.holding sreason with hsres
      have hwl : sres.2.watchlist = db.watchlist := by
        rw [hsres]
        exact sellHolding_watchlist ..
      have hsellinv := sellHolding_inv cfg env db target.holding sreason hinv
      rw [← hsres] at hsellinv
      by_cases hsold : sres.1 = true
      · rw [if_neg (not_not_intro hsold)]
        have hok := sellHolding_success_state cfg env db target.holding sreason
          (by rw [← hsres]; exact hsold)
        rw [← hsres] at hok
        have hlen : sres.2.holdings.length + 1 = db.holdings.length := by
          rw [hok.1]
          exact filter_ne_symbol_length db.holdings target.holding hinv.2 htmem
        have hcap10 : db.holdings.length ≤ MAX_SLOTS := hinv.1
        have hnodupNew : ∀ hnew : Holding, hnew.symbol = sym →
            ((sres.2.holdings ++ [hnew]).map (fun g => g.symbol)).Nodup := by
          intro hnew hnsym
          rw [List.map_append]
          apply List.Nodup.append
          · exact hsellinv.1.2
          · simp
          · intro a ha hb
            simp only [List.map_cons, List.map_nil, List.mem_singleton] at hb
            subst hb
            rw [hnsym, hok.1] at ha
            exact hsymnot (((List.filter_sublist db.holdings).map _).subset ha)
        by_cases hexec : cfg.executeTrades = true
        · rw [if_pos hexec]
          by_cases hmode : cfg.tradeMode ≠ "paper"
          · rw [if_pos hmode]
            exact ⟨hsellinv.1, hsellinv.2, by simp, hwl⟩
          · rw [if_neg hmode]
            by_cases hbuy : (paperBuy { } (env.spot sym) sym
                cfg.quoteAmount none).1.success = true
            · rw [if_neg (not_not_intro hbuy)]
              obtain ⟨hnew, hnsym, hsave, hsavew, -⟩ := saveHolding_state cfg
                env (recordExecution sres.2 (paperBuy { } (env.spot sym) sym
                  cfg.quoteAmount none).2) sym trig cand scen
                (some (paperBuy { } (env.spot sym) sym cfg.quoteAmount none).1)
              refine ⟨⟨?_, ?_⟩, ?_, ?_, ?_⟩
              · rw [hsave]
                simp only [recordExecution, List.length_append,
                  List.length_singleton]
                omega
              · rw [hsave]
                simpa [recordExecution] using hnodupNew hnew hnsym
              · rw [hsave]
                simp only [recordExecution, List.length_append,
                  List.length_singleton]
                omega
              · intro _
                rw [hsave]
                simp only [recordExecution, List.length_append,
                  List.length_singleton]
                omega
              · rw [hsavew]
                simpa [recordExecution] using hwl
            · rw [if_pos hbuy]
              refine ⟨?_, ?_, by simp, ?_⟩
              · exact ⟨by simpa [recordExecution] using hsellinv.1.1,
                  by simpa [recordExecution] using hsellinv.1.2⟩
              · simpa [recordExecution] using hsellinv.2
              · simpa [recordExecution] using hwl
        · rw [if_neg hexec]
          obtain ⟨hnew, hnsym, hsave, hsavew, -⟩ := saveHolding_state cfg env
            sres.2 sym trig cand scen none
          refine ⟨⟨?_, ?_⟩, ?_, ?_, ?_⟩
          · rw [hsave]
            simp only [List.length_append, List.length_singleton]
            omega
          · rw [hsave]
            exact hnodupNew hnew hnsym
          · rw [hsave]
            simp only [List.length_append, List.length_singleton]
            omega
          · intro _
            rw [hsave]
            simp only [List.length_append, List.length_singleton]
            omega
          · rw [hsavew]
            exact hwl
      · rw [if_pos hsold]
        have hfail := sellHolding_fail_state cfg env db target.holding sreason
          (by rw [← hsres]; simpa using hsold)
        rw [← hsres] at hfail
        refine ⟨?_, ?_, by simp, hwl⟩
        · rw [holdingsInv, hfail.1]
          exact hinv
        · rw [hfail.1]

theorem not_held_not_mem (db : DB) (sym : String)
    (hheld : symbolHeld db sym = false) :
    sym ∉ db.holdings.map (fun g => g.symbol) := by
  intro habs
  rw [symbolHeld, List.any_eq_false] at hheld
  obtain ⟨g, hg, hgs⟩ := List.mem_map.mp habs
  exact absurd (decide_eq_true hgs) (hheld g hg)

theorem nodup_append_new (l : List Holding) (hnew : Holding) (sym : String)
    (hnd : (l.map (fun g => g.symbol)).Nodup) (hnsym : hnew.symbol = sym)
    (hnot : sym ∉ l.map (fun g => g.symbol)) :
    ((l ++ [hnew]).map (fun g => g.symbol)).Nodup := by
  rw [List.map_append]
  apply List.Nodup.append hnd (by simp)
  intro a ha hb
  simp only [List.map_cons, List.map_nil, List.mem_singleton] at hb
  subst hb
  rw [hnsym] at ha
  exact hnot ha

/-- One candidate step preserves the holdings invariant and the rotation
budget, and never grows a full table. -/
theorem processOne_state (cfg : Cfg) (env : Env) (st : CycleState)
    (trig : String) (cand : Candidate) (hinv : holdingsInv st.db) :
    holdingsInv (processOne cfg env st trig cand).db ∧
    (st.rotationsDone ≤ ROTATION_MAX_PER_CYCLE →
      (processOne cfg env st trig cand).rotationsDone ≤
        ROTATION_MAX_PER_CYCLE) ∧
    (st.db.holdings.length ≥ MAX_SLOTS →
      (processOne cfg env st trig cand).db.holdings.length ≤
        st.db.holdings.length) := by
  simp only [processOne]
  by_cases h0 : cand.symbol = ""
  · rw [if_pos h0]
    exact ⟨hinv, fun h => h, fun _ => le_refl _⟩
  rw [if_neg h0]
  by_cases h1 : symbolHeld st.db cand.symbol = true
  · rw [if_pos h1]
    exact ⟨hinv, fun h => h, fun _ => le_refl _⟩
  rw [if_neg h1]
  by_cases h2 : cooldownActive cfg env st.db cand.symbol = true
  · rw [if_pos h2]
    exact ⟨hinv, fun h => h, fun _ => le_refl _⟩
  rw [if_neg h2]
  by_cases h3 : (((env.oracle trig cand).decision.getD "no_entry").toLower =
      "entry" ∧ pyInt (safeF (env.oracle trig cand).buyScore 0) ≥
        pyInt (safeF (env.oracle trig cand).minScore 6))
  · rw [if_pos h3]
    by_cases h4 : st.db.holdings.length ≥ MAX_SLOTS
    · rw [if_pos h4]
      by_cases h5 : st.rotationsDone < ROTATION_MAX_PER_CYCLE
      · rw [if_pos h5]
        have hrot := tryRotationEntry_state cfg env st.db cand.symbol trig
          cand (env.oracle trig cand) hinv (by simpa using h1)
        by_cases h6 : (tryRotationEntry cfg env st.db cand.symbol trig cand
            (env.oracle trig cand)).rotated = true
        · rw [if_pos h6]
          refine ⟨hrot.1, fun _ => ?_, fun _ => hrot.2.1⟩
          have h5' : st.rotationsDone < 1 := h5
          show st.rotationsDone + 1 ≤ 1
          omega
        · rw [if_neg h6]
          exact ⟨hrot.1, fun h => h, fun _ => hrot.2.1⟩
      · rw [if_neg h5]
        exact ⟨hinv, fun h => h, fun _ => le_refl _⟩
    · rw [if_neg h4]
      have hlt : st.db.holdings.length < MAX_SLOTS := lt_of_not_ge h4
      by_cases h6 : cfg.executeTrades = true
      · rw [if_pos h6]
        by_cases h7 : cfg.tradeMode ≠ "paper"
        · rw [if_pos h7]
          exact ⟨hinv, fun h => h, fun hfull => absurd hfull h4⟩
        · rw [if_neg h7]
          by_cases h8 : (paperBuy { } (env.spot cand.symbol) cand.symbol
              cfg.quoteAmount none).1.success = true
          · rw [if_neg (not_not_intro h8)]
            obtain ⟨hnew, hnsym, hsave, -, -⟩ := saveHolding_state cfg env
              (recordExecution st.db (paperBuy { } (env.spot cand.symbol)
                cand.symbol cfg.quoteAmount none).2) cand.symbol trig cand
              (env.oracle trig cand)
              (some (paperBuy { } (env.spot cand.symbol) cand.symbol
                cfg.quoteAmount none).1)
            refine ⟨⟨?_, ?_⟩, fun h => h, fun hfull => absurd hfull h4⟩
            · rw [hsave]
              simp only [recordExecution, List.length_append,
                List.length_singleton]
              omega
            · rw [hsave]
              refine nodup_append_new _ hnew cand.symbol ?_ hnsym ?_
              · exact hinv.2
              · exact not_held_not_mem st.db cand.symbol (by simpa using h1)
          · rw [if_pos h8]
            exact ⟨⟨by simpa [recordExecution] using hinv.1,
              by simpa [recordExecution] using hinv.2⟩,
              fun h => h, fun hfull => absurd hfull h4⟩
      · rw [if_neg h6]
        obtain ⟨hnew, hnsym, hsave, -, -⟩ := saveHolding_state cfg env st.db
          cand.symbol trig cand (env.oracle trig cand) none
        refine ⟨⟨?_, ?_⟩, fun h => h, fun hfull => absurd hfull h4⟩
        · rw [hsave]
          simp only [List.length_append, List.length_singleton]
          omega
        · rw [hsave]
          refine nodup_append_new _ hnew cand.symbol hinv.2 hnsym ?_
          exact not_held_not_mem st.db cand.symbol (by simpa using h1)
  · rw [if_neg h3]
    exact ⟨hinv, fun h => h, fun _ => le_refl _⟩

theorem updateHoldingsStep_inv (cfg : Cfg) (env : Env) (acc : DB × Nat)
    (h : Holding) (hinv : holdingsInv acc.1) :
    holdingsInv (updateHoldingsStep cfg env acc h).1 := by
  unfold updateHoldingsStep
  simp only []
  split
  · exact (sellHolding_inv cfg env acc.1 _ _ hinv).1
  · constructor
    · rw [(updateHoldingRow_symbols acc.1 _).2]
      exact hinv.1
    · rw [show (fun (h : Holding) => h.symbol) = (fun g => g.symbol) from rfl,
        (updateHoldingRow_symbols acc.1 _).1]
      exact hinv.2

theorem updateHoldings_inv (cfg : Cfg) (env : Env) (db : DB)
    (hinv : holdingsInv db) : holdingsInv (updateHoldings cfg env db).1 := by
  unfold updateHoldings
  have : ∀ (l : List Holding) (acc : DB × Nat), holdingsInv acc.1 →
      holdingsInv (l.foldl (updateHoldingsStep cfg env) acc).1 := by
    intro l
    induction l with
    | nil => intro acc h; exact h
    | cons a rest ih =>
      intro acc h
      exact ih _ (updateHoldingsStep_inv cfg env acc a h)
  exact this db.holdings (db, 0) hinv

theorem processTrigger_state (cfg : Cfg) (env : Env) (trig : String) :
    ∀ (items : List Candidate) (st : CycleState),
      holdingsInv st.db → st.rotationsDone ≤ ROTATION_MAX_PER_CYCLE →
      holdingsInv (processTrigger cfg env st trig items).db ∧
      (processTrigger cfg env st trig items).rotationsDone ≤
        ROTATION_MAX_PER_CYCLE := by
  intro items
  induction items with
  | nil => intro st h1 h2; exact ⟨h1, h2⟩
  | cons c cs ih =>
    intro st h1 h2
    have hstep := processOne_state cfg env st trig c h1
    exact ih (processOne cfg env st trig c) hstep.1 (hstep.2.1 h2)

theorem processCandidatesFile_state (cfg : Cfg) (env : Env) (db : DB)
    (data : List (String × List Candidate)) (hinv : holdingsInv db) :
    holdingsInv (processCandidatesFile cfg env db data).db ∧
    (processCandidatesFile cfg env db data).rotationsDone ≤
      ROTATION_MAX_PER_CYCLE := by
  unfold processCandidatesFile
  have hgen : ∀ (l : List (String × List Candidate)) (st : CycleState),
      holdingsInv st.db → st.rotationsDone ≤ ROTATION_MAX_PER_CYCLE →
      holdingsInv (l.foldl (fun s p =>
        if p.1 = "metadata" then s else processTrigger cfg env s p.1 p.2)
        st).db ∧
      (l.foldl (fun s p =>
        if p.1 = "metadata" then s else processTrigger cfg env s p.1 p.2)
        st).rotationsDone ≤ ROTATION_MAX_PER_CYCLE := by
    intro l
    induction l with
    | nil => intro st h1 h2; exact ⟨h1, h2⟩
    | cons p rest ih =>
      intro st h1 h2
      by_cases hm : p.1 = "metadata"
      · simp only [List.foldl_cons, if_pos hm]
        exact ih st h1 h2
      · simp only [List.foldl_cons, if_neg hm]
        have := processTrigger_state cfg env p.1 p.2 st h1 h2
        exact ih _ this.1 this.2
  exact hgen data
    ({ db := (updateHoldings cfg env db).1,
       soldCount := (updateHoldings cfg env db).2 })
    (updateHoldings_inv cfg env db hinv) (by simp [ROTATION_MAX_PER_CYCLE])

/-! ## C1 — holdings cap and symbol uniqueness -/

/-- C1: at every quiescent point of candidate processing the holdings table
has at most `MAX_SLOTS = 10` rows and never two rows for one symbol: a full
cycle preserves the invariant; a candidate whose symbol is already held is
skipped outright; a full table is never grown by a candidate step (a plain
entry inserts only strictly below the cap); and a completed rotation
deletes one holding before inserting the new one, preserving the count. -/
theorem holdings_cap_and_uniqueness :
    (∀ (cfg : Cfg) (env : Env) (db : DB)
        (data : List (String × List Candidate)),
      holdingsInv db →
      holdingsInv (processCandidatesFile cfg env db data).db) ∧
    (∀ (cfg : Cfg) (env : Env) (st : CycleState) (trig : String)
        (cand : Candidate),
      symbolHeld st.db cand.symbol = true →
      processOne cfg env st trig cand = st) ∧
    (∀ (cfg : Cfg) (env : Env) (st : CycleState) (trig : String)
        (cand : Candidate),
      holdingsInv st.db → st.db.holdings.length ≥ MAX_SLOTS →
      (processOne cfg env st trig cand).db.holdings.length ≤
        st.db.holdings.length) ∧
    (∀ (cfg : Cfg) (env : Env) (db : DB) (sym trig : String)
        (cand : Candidate) (scen : Scenario),
      holdingsInv db → symbolHeld db sym = false →
      (tryRotationEntry cfg env db sym trig cand scen).rotated = true →
      (tryRotationEntry cfg env db sym trig cand scen).db.holdings.length =
        db.holdings.length) := by
  refine ⟨?_, ?_, ?_, ?_⟩
  · intro cfg env db data h
    exact (processCandidatesFile_state cfg env db data h).1
  · intro cfg env st trig cand hheld
    by_cases h0 : cand.symbol = ""
    · simp [processOne, h0]
    · simp [processOne, h0, hheld]
  · intro cfg env st trig cand hinv hfull
    exact (processOne_state cfg env st trig cand hinv).2.2 hfull
  · intro cfg env db sym trig cand scen hinv hheld hrot
    exact (tryRotationEntry_state cfg env db sym trig cand scen
      hinv hheld).2.2.1 hrot

/-- C1 witness: the already-held skip evaluated on a concrete full store
holding `A1-USD`. -/
theorem holdings_cap_and_uniqueness_witness :
    processOne { } rotEnv { db := rotDB } "t" candA1 =
      { db := rotDB } :=
  holdings_cap_and_uniqueness.2.1 { } rotEnv { db := rotDB } "t" candA1
    (by rfl)

/-! ## C4 — rotation gates and per-cycle budget -/

theorem processOne_rotationsDone_le (cfg : Cfg) (env : Env) (st : CycleState)
    (trig : String) (cand : Candidate)
    (h : st.rotationsDone ≤ ROTATION_MAX_PER_CYCLE) :
    (processOne cfg env st trig cand).rotationsDone ≤
      ROTATION_MAX_PER_CYCLE := by
  simp only [processOne]
  split_ifs <;>
    first
      | exact h
      | (show st.rotationsDone + 1 ≤ ROTATION_MAX_PER_CYCLE
         have hlt : st.rotationsDone < 1 :=
           ‹st.rotationsDone < ROTATION_MAX_PER_CYCLE›
         show st.rotationsDone + 1 ≤ 1
         omega)

theorem processCandidatesFile_rotationsDone (cfg : Cfg) (env : Env) (db : DB)
    (data : List (String × List Candidate)) :
    (processCandidatesFile cfg env db data).rotationsDone ≤
      ROTATION_MAX_PER_CYCLE := by
  unfold processCandidatesFile
  have htrig : ∀ (items : List Candidate) (st : CycleState) (trig : String),
      st.rotationsDone ≤ ROTATION_MAX_PER_CYCLE →
      (processTrigger cfg env st trig items).rotationsDone ≤
        ROTATION_MAX_PER_CYCLE := by
    intro items
    induction items with
    | nil => intro st trig h; exact h
    | cons c cs ih =>
      intro st trig h
      exact ih (processOne cfg env st trig c) trig
        (processOne_rotationsDone_le cfg env st trig c h)
  have hgen : ∀ (l : List (String × List Candidate)) (st : CycleState),
      st.rotationsDone ≤ ROTATION_MAX_PER_CYCLE →
      (l.foldl (fun s p =>
        if p.1 = "metadata" then s else processTrigger cfg env s p.1 p.2)
        st).rotationsDone ≤ ROTATION_MAX_PER_CYCLE := by
    intro l
    induction l with
    | nil => intro st h; exact h
    | cons p rest ih =>
      intro st h
      by_cases hm : p.1 = "metadata"
      · simp only [List.foldl_cons, if_pos hm]
        exact ih st h
      · simp only [List.foldl_cons, if_neg hm]
        exact ih _ (htrig p.2 st p.1 h)
  exact hgen data _ (by simp [ROTATION_MAX_PER_CYCLE])

lemma refreshHolding_slot (name : String) :
    refreshHolding { } rotEnv (slotHolding name) = refreshedSlot name := by
  norm_num [refreshHolding, getLivePrice, paperTraderOn, refreshTrailingState,
    refreshedPeak, profitRatePct, safeF, slotHolding, rotEnv, refreshedSlot,
    rotScen]

lemma step_slot (db : DB) (n : Nat) (name : String) :
    updateHoldingsStep { } rotEnv (db, n) (slotHolding name) =
      (updateHoldingRow db (refreshedSlot name), n) := by
  simp only [updateHoldingsStep, refreshHolding_slot]
  norm_num [analyzeSellDecision, refreshedSlot, rotScen, slotHolding, safeF,
    holdingHoursAt, profitRatePct, rotEnv]

lemma updateHoldings_tenSlot :
    updateHoldings { } rotEnv tenSlotDB = (rotDB, 0) := by
  simp only [updateHoldings, tenSlotDB, List.map_cons, List.map_nil,
    List.foldl_cons, List.foldl_nil, step_slot]
  norm_num +decide [updateHoldingRow, refreshedSlot, slotHolding, safeF,
    rotDB, rotScen]

lemma toLower_entry : ("entry").toLower = "entry" := by
  rw [String.toLower, String.map]
  rw [String.mapAux.eq_def, dif_neg (by decide)]
  simp only []
  rw [show "entry".set 0 (Char.toLower ("entry".get 0)) = "entry" from
    by decide]
  rw [show "entry".next 0 = (⟨1⟩ : String.Pos) from by decide]
  rw [String.mapAux.eq_def, dif_neg (by decide)]
  simp only []
  rw [show "entry".set ⟨1⟩ (Char.toLower ("entry".get ⟨1⟩)) = "entry" from
    by decide]
  rw [show "entry".next ⟨1⟩ = (⟨2⟩ : String.Pos) from by decide]
  rw [String.mapAux.eq_def, dif_neg (by decide)]
  simp only []
  rw [show "entry".set ⟨2⟩ (Char.toLower ("entry".get ⟨2⟩)) = "entry" from
    by decide]
  rw [show "entry".next ⟨2⟩ = (⟨3⟩ : String.Pos) from by decide]
  rw [String.mapAux.eq_def, dif_neg (by decide)]
  simp only []
  rw [show "entry".set ⟨3⟩ (Char.toLower ("entry".get ⟨3⟩)) = "entry" from
    by decide]
  rw [show "entry".next ⟨3⟩ = (⟨4⟩ : String.Pos) from by decide]
  rw [String.mapAux.eq_def, dif_neg (by decide)]
  simp only []
  rw [show "entry".set ⟨4⟩ (Char.toLower ("entry".get ⟨4⟩)) = "entry" from
    by decide]
  rw [show "entry".next ⟨4⟩ = (⟨5⟩ : String.Pos) from by decide]
  rw [String.mapAux.eq_def, dif_pos (by decide)]

lemma tryRotation_fresh_blocked (cfg : Cfg) (env : Env) (db : DB)
    (sym trig : String) (cand : Candidate) (scen : Scenario)
    (hne : db.holdings ≠ [])
    (hfresh : ∀ x ∈ rotationRanked cfg env db,
      x.hours < ROTATION_MIN_HOLDING_HOURS) :
    tryRotationEntry cfg env db sym trig cand scen =
      ⟨false, "rotation blocked: min holding", 0, db⟩ := by
  have hempty : rotationEligible (safeF cand.finalScore 0)
      (rotationRanked cfg env db) = [] := by
    rw [rotationEligible, List.filter_eq_nil_iff]
    intro x hx
    simp only [decide_eq_true_eq, not_and]
    intro _
    exact not_le.mpr (hfresh x hx)
  unfold tryRotationEntry
  split
  · rename_i heq
    exact absurd (by simpa [rotationRanked] using heq) hne
  · rename_i r0 rs heq
    have hany : ((r0 :: rs).any
        (fun x => x.hours < ROTATION_MIN_HOLDING_HOURS)) = true := by
      refine List.any_eq_true.mpr ⟨r0, List.mem_cons_self .., ?_⟩
      exact decide_eq_true (hfresh r0 (heq ▸ List.mem_cons_self ..))
    split
    · rw [if_pos hany]
    · rename_i e0 es heq2
      rw [← heq, hempty] at heq2
      cases heq2

lemma rotDB_fresh (db : DB) (hdb : db.holdings = rotDB.holdings) :
    ∀ x ∈ rotationRanked { } rotEnv db,
      x.hours < ROTATION_MIN_HOLDING_HOURS := by
  intro x hx
  rw [rotationRanked, hdb] at hx
  simp only [rotDB, List.map_map, List.mem_map] at hx
  obtain ⟨n, _, rfl⟩ := hx
  norm_num [rankHolding, holdingHoursAt, rotEnv, slotHolding,
    ROTATION_MIN_HOLDING_HOURS, Function.comp]

lemma tenSlot_fresh :
    ∀ x ∈ rotationRanked { } rotEnv tenSlotDB,
      x.hours < ROTATION_MIN_HOLDING_HOURS := by
  intro x hx
  rw [rotationRanked] at hx
  simp only [tenSlotDB, List.map_map, List.mem_map] at hx
  obtain ⟨n, _, rfl⟩ := hx
  norm_num [rankHolding, holdingHoursAt, rotEnv, slotHolding,
    ROTATION_MIN_HOLDING_HOURS, Function.comp]

lemma rotEnv_oracle (t : String) (c : Candidate) :
    rotEnv.oracle t c = entryScenario := rfl

lemma entry_buyScore : pyInt (safeF entryScenario.buyScore 0) = 10 := by
  norm_num [entryScenario, safeF, pyInt]

lemma entry_minScore : pyInt (safeF entryScenario.minScore 6) = 5 := by
  norm_num [entryScenario, safeF, pyInt]

lemma entry_decision :
    ((entryScenario.decision.getD "no_entry")).toLower = "entry" := by
  rw [show entryScenario.decision = some "entry" from rfl]
  simpa using toLower_entry

lemma processOne_rot_blocked (st : CycleState) (c : Candidate)
    (hdb : st.db.holdings = rotDB.holdings)
    (hsym : c.symbol ≠ "")
    (hheld : symbolHeld st.db c.symbol = false)
    (hrd : st.rotationsDone = 0) :
    processOne { } rotEnv st "t" c =
      recordNoEntry { st with rotationAttempts := st.rotationAttempts + 1 }
        c.symbol "t" entryScenario "rotation blocked: min holding" := by
  have hrot := tryRotation_fresh_blocked { } rotEnv st.db c.symbol "t" c
    entryScenario (by rw [hdb]; simp [rotDB]) (rotDB_fresh st.db hdb)
  have hlen : st.db.holdings.length = 10 := by rw [hdb]; rfl
  simp only [processOne, if_neg hsym, hheld, Bool.false_eq_true, if_false,
    rotEnv_oracle]
  norm_num [cooldownActive, entry_buyScore, entry_minScore, entry_decision,
    hlen, MAX_SLOTS, hrd, ROTATION_MAX_PER_CYCLE, hrot, recordNoEntry]

/-- C4 counterexample.  Ten fresh slots and two strong candidates in one
cycle: the first rotation attempt is blocked by the min-holding gate, which
does not consume the rotation budget, so the second candidate triggers a
second rotation attempt — the claim's "at most 1 rotation is attempted per
cycle" fails. -/
theorem rotation_attempted_twice_counterexample :
    (processCandidatesFile { } rotEnv tenSlotDB
      [("t", [candN, candM])]).rotationAttempts = 2 := by
  have hfold : processCandidatesFile { } rotEnv tenSlotDB
      [("t", [candN, candM])] =
      processOne { } rotEnv
        (processOne { } rotEnv { db := rotDB } "t" candN) "t" candM := by
    simp only [processCandidatesFile, updateHoldings_tenSlot, processTrigger,
      List.foldl_cons, List.foldl_nil]
    rw [if_neg (show ¬ ((("t", [candN, candM])).1 = "metadata") by decide)]
  have h1 := processOne_rot_blocked { db := rotDB } candN rfl
    (by decide) (by decide) rfl
  rw [hfold, h1]
  rw [processOne_rot_blocked _ candM (by simp [recordNoEntry, saveWatchlist])
    (by decide) (by decide) rfl]
  simp [recordNoEntry]

/-- C4 (amended: at most one rotation is *completed* per cycle — a blocked
or failed attempt does not consume the budget, so several attempts can
occur).  The completed-rotation counter never exceeds
`ROTATION_MAX_PER_CYCLE = 1`; when the eligible list is non-empty the
eviction target is eligible (so it passes both gates: its holding age is at
least 4 h and the candidate's score beats its score — hence also the
weakest score — by at least 0.12) and is minimal under the ascending sort
key `(profit ≥ 0, not loss-priority, profit, score)`; and when every
holding is fresher than 4 h the rotation is blocked with the min-holding
reason and the store is untouched. -/
theorem rotation_gates_and_budget :
    (∀ (cfg : Cfg) (env : Env) (db : DB)
        (data : List (String × List Candidate)),
      (processCandidatesFile cfg env db data).rotationsDone ≤
        ROTATION_MAX_PER_CYCLE) ∧
    (∀ (cfg : Cfg) (env : Env) (db : DB) (cand : Candidate)
        (e0 : Ranked) (es : List Ranked),
      rotationEligible (safeF cand.finalScore 0)
        (rotationRanked cfg env db) = e0 :: es →
      pickFirstMin e0 es ∈ rotationEligible (safeF cand.finalScore 0)
        (rotationRanked cfg env db) ∧
      (pickFirstMin e0 es).hours ≥ ROTATION_MIN_HOLDING_HOURS ∧
      safeF cand.finalScore 0 ≥
        (pickFirstMin e0 es).score + ROTATION_MIN_SCORE_DELTA ∧
      safeF cand.finalScore 0 ≥
        minimumScore (rotationRanked cfg env db) + ROTATION_MIN_SCORE_DELTA ∧
      (∀ y ∈ e0 :: es, ¬ rotKey y < rotKey (pickFirstMin e0 es))) ∧
    (∀ (cfg : Cfg) (env : Env) (db : DB) (sym trig : String)
        (cand : Candidate) (scen : Scenario) (r0 : Ranked) (rs : List Ranked),
      rotationRanked cfg env db = r0 :: rs →
      (∀ x ∈ r0 :: rs, x.hours < ROTATION_MIN_HOLDING_HOURS) →
      tryRotationEntry cfg env db sym trig cand scen =
        ⟨false, "rotation blocked: min holding", 0, db⟩) := by
  refine ⟨?_, ?_, ?_⟩
  · intro cfg env db data
    exact processCandidatesFile_rotationsDone cfg env db data
  · intro cfg env db cand e0 es he
    have hmem : pickFirstMin e0 es ∈ rotationEligible (safeF cand.finalScore 0)
        (rotationRanked cfg env db) := he ▸ pickFirstMin_mem e0 es
    have hranked : pickFirstMin e0 es ∈ rotationRanked cfg env db :=
      List.mem_of_mem_filter hmem
    have hgate : safeF cand.finalScore 0 ≥
        (pickFirstMin e0 es).score + ROTATION_MIN_SCORE_DELTA ∧
        (pickFirstMin e0 es).hours ≥ ROTATION_MIN_HOLDING_HOURS := by
      have := List.of_mem_filter hmem
      exact of_decide_eq_true this
    refine ⟨hmem, hgate.2, hgate.1, ?_, pickFirstMin_min e0 es⟩
    have hmin := minimumScore_le (rotationRanked cfg env db)
      (pickFirstMin e0 es) hranked
    linarith [hgate.1]
  · intro cfg env db sym trig cand scen r0 rs hr hfresh
    refine tryRotation_fresh_blocked cfg env db sym trig cand scen ?_ ?_
    · intro h
      rw [rotationRanked, h] at hr
      simp at hr
    · intro x hx
      exact hfresh x (hr ▸ hx)

/-- C4 witness: the min-holding block evaluated on ten fresh slots. -/
theorem rotation_gates_and_budget_witness :
    tryRotationEntry { } rotEnv tenSlotDB "NEW-USD" "t" candN entryScenario =
      ⟨false, "rotation blocked: min holding", 0, tenSlotDB⟩ :=
  rotation_gates_and_budget.2.2 { } rotEnv tenSlotDB "NEW-USD" "t" candN
    entryScenario _ _ rfl (by exact tenSlot_fresh)

/-! ## C5 — rotation is atomic: evict-one + admit-one -/

/-- C5: rotation is an atomic evict-one + admit-one.  When the eviction
sell of the chosen target fails, the rotation reports not-rotated with the
sell-failure reason and the holdings table — the target included — is
unchanged; when the sell succeeded but the post-sell paper buy fails, the
rotation reports not-rotated with the buy-failure context and no new
holding is inserted (the store keeps exactly the post-sell holdings); and
whenever the candidate loop's rotation attempt does not complete, the
candidate is recorded in the Watchlist with the rotation's reason and no
entry is counted. -/
theorem rotation_atomicity :
    (∀ (cfg : Cfg) (env : Env) (db : DB) (sym trig : String)
        (cand : Candidate) (scen : Scenario) (e0 : Ranked) (es : List Ranked),
      rotationEligible (safeF cand.finalScore 0) (rotationRanked cfg env db)
        = e0 :: es →
      (sellHolding cfg env db (pickFirstMin e0 es).holding
        (rotationReplaceReason (pickFirstMin e0 es).holding.symbol sym)).1
        = false →
      (tryRotationEntry cfg env db sym trig cand scen).rotated = false ∧
      (tryRotationEntry cfg env db sym trig cand scen).reason =
        "rotation sell failed: " ++ (pickFirstMin e0 es).holding.symbol ∧
      (tryRotationEntry cfg env db sym trig cand scen).db.holdings =
        db.holdings) ∧
    (∀ (cfg : Cfg) (env : Env) (db : DB) (sym trig : String)
        (cand : Candidate) (scen : Scenario) (e0 : Ranked) (es : List Ranked),
      rotationEligible (safeF cand.finalScore 0) (rotationRanked cfg env db)
        = e0 :: es →
      (sellHolding cfg env db (pickFirstMin e0 es).holding
        (rotationReplaceReason (pickFirstMin e0 es).holding.symbol sym)).1
        = true →
      cfg.executeTrades = true → cfg.tradeMode = "paper" →
      (paperBuy { } (env.spot sym) sym cfg.quoteAmount none).1.success
        = false →
      (tryRotationEntry cfg env db sym trig cand scen).rotated = false ∧
      (tryRotationEntry cfg env db sym trig cand scen).reason =
        "paper buy failed after rotation: " ++
          (paperBuy { } (env.spot sym) sym cfg.quoteAmount none).1.message ∧
      (tryRotationEntry cfg env db sym trig cand scen).db.holdings =
        (sellHolding cfg env db (pickFirstMin e0 es).holding
          (rotationReplaceReason (pickFirstMin e0 es).holding.symbol
            sym)).2.holdings) ∧
    (∀ (cfg : Cfg) (env : Env) (st : CycleState) (trig : String)
        (cand : Candidate),
      holdingsInv st.db →
      cand.symbol ≠ "" →
      symbolHeld st.db cand.symbol = false →
      cooldownActive cfg env st.db cand.symbol = false →
      ((env.oracle trig cand).decision.getD "no_entry").toLower = "entry" →
      pyInt (safeF (env.oracle trig cand).buyScore 0) ≥
        pyInt (safeF (env.oracle trig cand).minScore 6) →
      st.db.holdings.length ≥ MAX_SLOTS →
      st.rotationsDone < ROTATION_MAX_PER_CYCLE →
      (tryRotationEntry cfg env st.db cand.symbol trig cand
        (env.oracle trig cand)).rotated = false →
      (processOne cfg env st trig cand).db.watchlist =
        st.db.watchlist ++
          [{ symbol := cand.symbol, triggerType := trig,
             reason := (tryRotationEntry cfg env st.db cand.symbol trig cand
               (env.oracle trig cand)).reason,
             buyScore := pyInt (safeF (env.oracle trig cand).buyScore 0),
             minScore := pyInt (safeF (env.oracle trig cand).minScore 0),
             scenario := env.oracle trig cand }] ∧
      (processOne cfg env st trig cand).entryCount = st.entryCount ∧
      (processOne cfg env st trig cand).noEntryCount =
        st.noEntryCount + 1) := by
  refine ⟨?_, ?_, ?_⟩
  · intro cfg env db sym trig cand scen e0 es he hfail
    unfold tryRotationEntry
    split
    · rename_i heq
      rw [heq] at he
      simp [rotationEligible] at he
    · rename_i r0 rs heq
      rw [heq] at he
      split
      · rename_i heq2
        rw [heq2] at he
        cases he
      · rename_i e0' es' heq2
        rw [heq2] at he
        cases he
        rw [if_pos (by simp [hfail])]
        exact ⟨rfl, rfl,
          (sellHolding_fail_state cfg env db _ _ hfail).1⟩
  · intro cfg env db sym trig cand scen e0 es he hok hexec hmode hbuy
    unfold tryRotationEntry
    split
    · rename_i heq
      rw [heq] at he
      simp [rotationEligible] at he
    · rename_i r0 rs heq
      rw [heq] at he
      split
      · rename_i heq2
        rw [heq2] at he
        cases he
      · rename_i e0' es' heq2
        rw [heq2] at he
        cases he
        rw [if_neg (by simp [hok]), if_pos hexec,
          if_neg (not_not_intro hmode), if_pos (by simpa using hbuy)]
        exact ⟨rfl, rfl, by simp [recordExecution]⟩
  · intro cfg env st trig cand hinv hsym hheld hcool hdec hscore hfull hbudget
      hrotf
    have hwatch := (tryRotationEntry_state cfg env st.db cand.symbol trig cand
      (env.oracle trig cand) hinv hheld).2.2.2
    simp only [processOne, if_neg hsym, hheld, Bool.false_eq_true, if_false,
      hcool, if_pos (And.intro hdec hscore), if_pos hfull,
      if_pos hbudget, hrotf]
    simp [recordNoEntry, saveWatchlist, hwatch]

lemma emptySym_eligible :
    rotationEligible (safeF candN.finalScore 0)
        (rotationRanked { } sellFailEnv emptySymDB) =
      [rankHolding { } sellFailEnv emptySymHolding] := by
  rw [rotationRanked]
  norm_num [rotationEligible, rankHolding, emptySymDB, emptySymHolding,
    holdingFinalScore, safeF, candN, getLivePrice, paperTraderOn,
    holdingHoursAt, sellFailEnv, ROTATION_MIN_SCORE_DELTA,
    ROTATION_MIN_HOLDING_HOURS, List.filter]

/-- C5 witness: a rotation whose eviction sell fails (empty stored symbol)
aborts and leaves the holdings unchanged. -/
theorem rotation_atomicity_witness :
    (tryRotationEntry { } sellFailEnv emptySymDB "NEW-USD" "t" candN
      entryScenario).rotated = false ∧
    (tryRotationEntry { } sellFailEnv emptySymDB "NEW-USD" "t" candN
      entryScenario).db.holdings = emptySymDB.holdings :=
  ⟨(rotation_atomicity.1 { } sellFailEnv emptySymDB "NEW-USD" "t" candN
      entryScenario (rankHolding { } sellFailEnv emptySymHolding) []
      emptySym_eligible (by rfl)).1,
   (rotation_atomicity.1 { } sellFailEnv emptySymDB "NEW-USD" "t" candN
      entryScenario (rankHolding { } sellFailEnv emptySymHolding) []
      emptySym_eligible (by rfl)).2.2⟩

/-! ## C6 — re-entry cool-down -/

/-- C6 counterexample.  `NEAR-USD` was sold at `t = 10`, the cool-down is
`H = 5 > 0`, the cycle runs at `now = 12 ∈ (10, 15)` — yet because a
holdings row for the symbol still exists, the held-symbol skip fires
before the cool-down check: the candidate is dropped with no Watchlist
row at all, against the claim's "exactly one Watchlist no_entry row". -/
theorem cooldown_not_enforced_for_held_counterexample :
    cooldownCfg.cooldownHours > 0 ∧
    lastSellDate heldCooldownDB "NEAR-USD" = some 10 ∧
    (10 : ℚ) < cooldownEnv.now ∧
    cooldownEnv.now < 10 + cooldownCfg.cooldownHours ∧
    processOne cooldownCfg cooldownEnv cooldownState0 "T" cooldownCand =
      cooldownState0 ∧
    (processOne cooldownCfg cooldownEnv cooldownState0 "T"
      cooldownCand).db.watchlist = [] := by
  have hskip : processOne cooldownCfg cooldownEnv cooldownState0 "T"
      cooldownCand = cooldownState0 := by
    simp only [processOne]
    rw [if_neg (by decide : ¬ (cooldownCand.symbol = "")),
      if_pos (by decide :
        symbolHeld cooldownState0.db cooldownCand.symbol = true)]
  refine ⟨by norm_num [cooldownCfg], by rfl,
    by norm_num [cooldownEnv], by norm_num [cooldownEnv, cooldownCfg],
    hskip, ?_⟩
  rw [hskip]
  rfl

/-- C6 (amended: the cool-down block applies to candidates whose symbol is
*not currently held* — a still-held symbol is skipped earlier with no
Watchlist row).  For a non-empty, not-held candidate symbol with latest
recorded sell at `t`, positive cool-down `H` and `t < now < t + H`, the
candidate is recorded as exactly one Watchlist no-entry row with the
cool-down reason, holdings and entry count are untouched, and the oracle
is not consulted (the outcome is the same under every oracle). -/
theorem cooldown_blocks_entry (cfg : Cfg) (env : Env) (st : CycleState)
    (trig : String) (cand : Candidate) (t : ℚ)
    (hsym : cand.symbol ≠ "")
    (hheld : symbolHeld st.db cand.symbol = false)
    (hH : cfg.cooldownHours > 0)
    (hlast : lastSellDate st.db cand.symbol = some t)
    (_hwin : t < env.now)
    (hnow : env.now < t + cfg.cooldownHours) :
    processOne cfg env st trig cand =
      recordNoEntry st cand.symbol trig defaultScenario cooldownReasonText ∧
    (processOne cfg env st trig cand).db.watchlist =
      st.db.watchlist ++
        [{ symbol := cand.symbol, triggerType := trig,
           reason := cooldownReasonText,
           buyScore := pyInt (safeF defaultScenario.buyScore 0),
           minScore := pyInt (safeF defaultScenario.minScore 0),
           scenario := defaultScenario }] ∧
    (processOne cfg env st trig cand).db.holdings = st.db.holdings ∧
    (processOne cfg env st trig cand).entryCount = st.entryCount ∧
    (∀ o₁ o₂ : String → Candidate → Scenario,
      processOne cfg { env with oracle := o₁ } st trig cand =
      processOne cfg { env with oracle := o₂ } st trig cand) := by
  have hcd : ∀ e : Env, e.now = env.now →
      cooldownActive cfg e st.db cand.symbol = true := by
    intro e he
    rw [cooldownActive, if_neg (not_le.mpr hH), hlast, he]
    exact decide_eq_true hnow
  have hmain : processOne cfg env st trig cand =
      recordNoEntry st cand.symbol trig defaultScenario
        cooldownReasonText := by
    simp only [processOne, if_neg hsym, hheld, Bool.false_eq_true, if_false,
      hcd env rfl, if_true]
  refine ⟨hmain, ?_, ?_, ?_, ?_⟩
  · rw [hmain]; simp [recordNoEntry, saveWatchlist]
  · rw [hmain]; simp [recordNoEntry, saveWatchlist]
  · rw [hmain]; simp [recordNoEntry, saveWatchlist]
  · intro o₁ o₂
    have h1 : processOne cfg { env with oracle := o₁ } st trig cand =
        recordNoEntry st cand.symbol trig defaultScenario
          cooldownReasonText := by
      simp only [processOne, if_neg hsym, hheld, Bool.false_eq_true, if_false,
        hcd { env with oracle := o₁ } rfl, if_true]
    have h2 : processOne cfg { env with oracle := o₂ } st trig cand =
        recordNoEntry st cand.symbol trig defaultScenario
          cooldownReasonText := by
      simp only [processOne, if_neg hsym, hheld, Bool.false_eq_true, if_false,
        hcd { env with oracle := o₂ } rfl, if_true]
    rw [h1, h2]

/-- C6 witness: a not-held `NEAR-USD` candidate inside the cool-down window
goes to the Watchlist with the cool-down reason. -/
theorem cooldown_blocks_entry_witness :
    processOne cooldownCfg cooldownEnv { db := freeCooldownDB } "t"
        cooldownCand =
      recordNoEntry { db := freeCooldownDB } cooldownCand.symbol "t"
        defaultScenario cooldownReasonText :=
  (cooldown_blocks_entry cooldownCfg cooldownEnv { db := freeCooldownDB }
    "t" cooldownCand 10 (by decide) (by decide)
    (by norm_num [cooldownCfg]) (by rfl)
    (by norm_num [cooldownEnv])
    (by norm_num [cooldownEnv, cooldownCfg])).1

end Crypto
